import Mathlib

/-!
Verification development for the contract-data storage API of
stellar/laboratory-backend: cursor codec (`src/helpers/cursor.ts`),
request-parameter parsing (`src/controllers/contract_data.ts`),
pagination-link building, and the keyset-pagination query builder
(`src/query-builders/contract_data.ts`).

Embedding conventions:
* JavaScript numbers appearing here (Unix-second timestamps, ledger
  sequences, page limits) are integers in the code's actual value range, so
  they are modelled as `Int`/`Nat`.
* The JSON documents produced by `JSON.stringify` / consumed by `JSON.parse`
  are modelled by the inductive `Json` below; `Buffer`/base64 and JSON
  text serialization are standard-library bijections between JSON values and
  wire strings and are abstracted: a wire cursor string is either empty,
  malformed (fails `JSON.parse`), or carries a JSON value (`CursorWire`).
* `closed_at` (a Postgres `timestamptz`) is modelled in whole Unix seconds:
  Stellar ledger close times are whole-second Unix timestamps, so the
  `Date -> Math.floor(getTime()/1000)` conversion in `extractSortValue` is
  exact at this granularity.
* SQL queries built by the query builder are given their executable
  relational semantics over an explicit table (`List Row`), with SQL
  three-valued logic for NULL comparisons (a NULL comparison never
  satisfies a WHERE predicate) and `ORDER BY ... NULLS LAST/FIRST`
  positioning made explicit.
-/

namespace LabBackend

/-! ## Data model

`SortDirection`, `SortField`, `SortDbField` and the field map are from
`src/types/contract_data.ts`. -/

inductive SortDirection where
  | asc
  | desc
deriving DecidableEq, Repr

inductive SortField where
  | durability
  | key_hash
  | ttl
  | updated_at
deriving DecidableEq, Repr

/-- DB column names that can appear in ORDER BY / cursor comparisons
(the `SortDbField` union type). -/
inductive SortDbField where
  | durability
  | key_hash
  | live_until_ledger_sequence
  | closed_at
deriving DecidableEq, Repr

/-- The runtime string value of a `SortField` enum member. -/
def SortField.toStr : SortField → String
  | .durability => "durability"
  | .key_hash => "key_hash"
  | .ttl => "ttl"
  | .updated_at => "updated_at"

/-- The `APIFieldToDBFieldMap` record from `src/types/contract_data.ts`. -/
def APIFieldToDBFieldMap : SortField → SortDbField
  | .durability => .durability
  | .key_hash => .key_hash
  | .ttl => .live_until_ledger_sequence
  | .updated_at => .closed_at

/-- Modelled from the spec: the `contract_data` storage table row (spec §3);
the Prisma schema itself is not under `src/`.  Per §3, `key_hash` is a hex
digest unique within a contract, `durability` is a (non-null) string tag,
`closed_at` is a non-null ledger-close timestamp (whole Unix seconds), and
`live_until_ledger_sequence` is nullable.  The payload columns `key`, `val`,
`key_symbol` and `ledger_sequence` play no role in ordering, cursors or
links and are omitted. -/
structure Row where
  contract_id : String
  key_hash : String
  durability : String
  closed_at : Int
  live_until_ledger_sequence : Option Int
deriving DecidableEq, Repr

/-! ## JSON values

Model of the documents handled by `JSON.stringify`/`JSON.parse` in the
cursor codec (`src/helpers/cursor.ts`). -/

inductive Json where
  | null
  | bool (b : Bool)
  | num (n : Int)
  | str (s : String)
  | arr (elems : List Json)
  | obj (fields : List (String × Json))

/-- First-occurrence field lookup on a JSON object.  `JSON.parse` output
never contains duplicate keys, so this agrees with JS property access on
every reachable value. -/
def Json.lookup (fields : List (String × Json)) (k : String) : Option Json :=
  match fields with
  | [] => none
  | (k2, v) :: rest => if k2 = k then some v else Json.lookup rest k

/-- A JavaScript primitive that can sit in `CursorData.position.sortValue`:
the TS type is `number | string | bigint` but callers
(`buildPaginationLinks`) can also pass `null` for a null TTL column. -/
inductive JsPrim where
  | num (n : Int)
  | str (s : String)
  | bigintVal (n : Int)
  | nullVal
deriving DecidableEq, Repr

/-- The `CursorData.position` object from `src/helpers/cursor.ts`:
`keyHash` plus optional `sortValue` (`none` = JS `undefined`). -/
structure CursorPosition where
  keyHash : String
  sortValue : Option JsPrim
deriving DecidableEq, Repr

/-- The `CursorData` type from `src/helpers/cursor.ts`.  `cursorType` is
declared `"next" | "prev"` in TS but is an arbitrary runtime string until
`encodeCursor` normalizes it / `decodeCursor` validates it, so it is a
`String` here. -/
structure CursorData where
  cursorType : String
  sortField : Option String
  position : CursorPosition
deriving DecidableEq, Repr

/-- The JSON value `JSON.stringify` produces for a `JsPrim`.
(`JSON.stringify` throws on a bigint; `encodeCursor` converts bigints to
decimal strings before serializing, so the `bigintVal` branch is
unreachable from `encodeCursor` and is mapped to the same decimal string
to keep the function total.) -/
def jsPrimToJson : JsPrim → Json
  | .num n => .num n
  | .str s => .str s
  | .bigintVal n => .str (toString n)
  | .nullVal => .null

/-- The `encodeCursor` function of `src/helpers/cursor.ts`, up to (and not
including) the base64/JSON-text serialization: normalize `cursorType` to
`"next"` unless it is exactly `"prev"`, stringify a bigint `sortValue`,
then serialize.  Field order and omission of `undefined`-valued optional
fields follow `JSON.stringify`. -/
def encodeCursor (c : CursorData) : Json :=
  let ct := if c.cursorType != "prev" then "next" else c.cursorType
  let sv : Option JsPrim :=
    match c.position.sortValue with
    | some (JsPrim.bigintVal n) => some (JsPrim.str (toString n))
    | v => v
  Json.obj
    (("cursorType", Json.str ct) ::
      (match c.sortField with
       | none => []
       | some f => [("sortField", Json.str f)]) ++
      [("position", Json.obj
        (("keyHash", Json.str c.position.keyHash) ::
          (match sv with
           | none => []
           | some p => [("sortValue", jsPrimToJson p)])))])

/-- The zod `cursorDataSchema.safeParse` of `src/helpers/cursor.ts` applied
to a parsed JSON document: `cursorType` must be exactly `"next"` or
`"prev"`; `sortField` is an optional string (any string); `position` is an
object with a required string `keyHash` and an optional `sortValue` that
must be a JSON number or string (explicit `null` fails: `z.union([z.number(),
z.string()]).optional()` accepts only a missing value).  Unknown extra keys
are stripped, as zod objects do by default. -/
def cursorDataSchema : Json → Option CursorData
  | Json.obj fields =>
    match Json.lookup fields "cursorType" with
    | some (Json.str ct) =>
      if ct = "next" ∨ ct = "prev" then
        match Json.lookup fields "sortField" with
        | some (Json.str sf) => cursorSchemaPosition fields ct (some sf)
        | none => cursorSchemaPosition fields ct none
        | some _ => none
      else none
    | _ => none
  | _ => none
where
  /-- Validation of the nested `position` object of the schema. -/
  cursorSchemaPosition (fields : List (String × Json)) (ct : String)
      (sf : Option String) : Option CursorData :=
    match Json.lookup fields "position" with
    | some (Json.obj pos) =>
      match Json.lookup pos "keyHash" with
      | some (Json.str kh) =>
        match Json.lookup pos "sortValue" with
        | none => some ⟨ct, sf, kh, none⟩
        | some (Json.num n) => some ⟨ct, sf, kh, some (JsPrim.num n)⟩
        | some (Json.str s) => some ⟨ct, sf, kh, some (JsPrim.str s)⟩
        | some _ => none
      | _ => none
    | _ => none

/-- A cursor query parameter as it arrives on the wire, after the
(abstracted) base64 decode and `JSON.parse` attempt: the empty string
(falsy in JS), a non-empty string on which `JSON.parse` fails, or a
non-empty string carrying the JSON value `j`. -/
inductive CursorWire where
  | emptyStr
  | malformed
  | parsed (j : Json)

/-- JS truthiness of the cursor string (`if (cursor)`):
only the empty string is falsy. -/
def CursorWire.truthy : CursorWire → Bool
  | .emptyStr => false
  | _ => true

/-- The `decodeCursor` function of `src/helpers/cursor.ts`: base64-decode
and `JSON.parse` (failure raises `InvalidCursorError`, here `none`), then
validate with `cursorDataSchema.safeParse` (failure also raises
`InvalidCursorError`). -/
def decodeCursor : CursorWire → Option CursorData
  | .emptyStr => none
  | .malformed => none
  | .parsed j => cursorDataSchema j

/-! ## Request parameter parsing

Embedding of `parseRequestParams` from `src/controllers/contract_data.ts`. -/

/-- Characters skipped by `parseInt` before the number (the common ASCII
JavaScript `StrWhiteSpace` characters). -/
def jsIsSpace (c : Char) : Bool :=
  c = ' ' ∨ c = '\t' ∨ c = '\n' ∨ c = '\r' ∨ c = '\x0b' ∨ c = '\x0c'

/-- Longest prefix of decimal digits, as a number (`none` when empty). -/
def parseDigits (base : Nat) (digitVal : Char → Option Nat) :
    List Char → Option Nat → Option Nat
  | [], acc => acc
  | c :: rest, acc =>
    match digitVal c with
    | some d => parseDigits base digitVal rest (some ((acc.getD 0) * base + d))
    | none => acc

/-- Value of a decimal digit character. -/
def decDigitVal (c : Char) : Option Nat :=
  if '0' ≤ c ∧ c ≤ '9' then some (c.toNat - '0'.toNat) else none

/-- Value of a hexadecimal digit character. -/
def hexDigitVal (c : Char) : Option Nat :=
  if '0' ≤ c ∧ c ≤ '9' then some (c.toNat - '0'.toNat)
  else if 'a' ≤ c ∧ c ≤ 'f' then some (c.toNat - 'a'.toNat + 10)
  else if 'A' ≤ c ∧ c ≤ 'F' then some (c.toNat - 'A'.toNat + 10)
  else none

/-- JavaScript `parseInt(s)` (radix auto-detected): skip leading
whitespace, optional sign, then either `0x`/`0X` hex digits or decimal
digits; the longest such prefix is the value and the rest of the string is
ignored; `none` models `NaN`. -/
def jsParseInt (s : String) : Option Int :=
  let chars := s.data.dropWhile jsIsSpace
  let signAndRest : Int × List Char :=
    match chars with
    | '-' :: rest => (-1, rest)
    | '+' :: rest => (1, rest)
    | rest => (1, rest)
  let sign := signAndRest.1
  let body := signAndRest.2
  let mag : Option Nat :=
    match body with
    | '0' :: 'x' :: rest => parseDigits 16 hexDigitVal rest none
    | '0' :: 'X' :: rest => parseDigits 16 hexDigitVal rest none
    | rest => parseDigits 10 decDigitVal rest none
  mag.map (fun m => sign * (m : Int))

/-- ASCII lowercasing of one character, the relevant fragment of JS
`String.prototype.toLowerCase` (query-string values here are ASCII). -/
def charLower (c : Char) : Char :=
  if 'A' ≤ c ∧ c ≤ 'Z' then Char.ofNat (c.toNat + 32) else c

/-- JS `toLowerCase` on the ASCII strings that reach it here. -/
def jsToLower (s : String) : String := ⟨s.data.map charLower⟩

/-- JS `String.prototype.trim`: strip whitespace from both ends. -/
def jsTrim (s : String) : String :=
  ⟨((s.data.dropWhile jsIsSpace).reverse.dropWhile jsIsSpace).reverse⟩

/-- The query-string parameters read by `parseRequestParams`
(`req.query`); `none` is an absent parameter. -/
structure Query where
  cursor : Option CursorWire
  limit : Option String
  order : Option String
  sort_by : Option String

/-- The validation failures `parseRequestParams` can throw.  `invalidLimit`
and `invalidSortBy` are plain `Error`s carrying the offending literal;
`invalidCursor` is `InvalidCursorError` from `decodeCursor`;
`cursorMismatch` is `CursorParameterMismatchError(field, queryValue,
cursorValue)` from `src/types/contract_data.ts`. -/
inductive ParseError where
  | invalidLimit (lit : String)
  | invalidSortBy (lit : String)
  | invalidCursor
  | cursorMismatch (field : String) (queryValue : String) (cursorValue : Option String)
deriving DecidableEq, Repr

/-- The rendered `message` of a `ParseError`, matching the TS template
strings (an `undefined` cursor value renders as `undefined`). -/
def ParseError.message : ParseError → String
  | .invalidLimit lit =>
    s!"Invalid limit={lit}, must be an integer between 1 and 200"
  | .invalidSortBy lit =>
    s!"Invalid sort_by parameter {lit} must be one of durability, key_hash, ttl, updated_at"
  | .invalidCursor => "Invalid cursor"
  | .cursorMismatch field q c =>
    let cv := c.getD "undefined"
    s!"Cursor parameter mismatch for field \"{field}\": query value=\"{q}\" but cursor value=\"{cv}\". Pagination parameters must be consistent across requests."

/-- The `RequestParams` result type from `src/types/contract_data.ts`. -/
structure RequestParams where
  contractId : String
  cursor : Option CursorWire
  cursorData : Option CursorData
  limit : Int
  sortDirection : SortDirection
  sortField : SortField
  sortDbField : SortDbField

/-- Parse a validated `sort_by` string back to the enum. -/
def SortField.ofStr (s : String) : Option SortField :=
  if s = "durability" then some .durability
  else if s = "key_hash" then some .key_hash
  else if s = "ttl" then some .ttl
  else if s = "updated_at" then some .updated_at
  else none

/-- The `parseRequestParams` function of `src/controllers/contract_data.ts`.
Literal translation: destructuring defaults (`limit = "20"`, `order =
"desc"`, `sort_by = "key_hash"`) apply only to absent parameters;
lowercase/trim of `order`/`sort_by`; the limit branch is guarded by JS
truthiness (`if (limit)`), so a present-but-empty `limit` skips
validation; `parseInt(limit) || 10` turns `NaN` and `0` into `10`;
`Math.min(..., 200)` caps the result; the cursor is decoded only when the
cursor string is truthy, and its `sortField` (defaulting to `key_hash`)
must equal the request's resolved sort field. -/
def parseRequestParams (contract_id : String) (q : Query) :
    Except ParseError RequestParams :=
  let limit := q.limit.getD "20"
  let order := jsTrim (jsToLower (q.order.getD "desc"))
  let sort_by := jsTrim (jsToLower (q.sort_by.getD "key_hash"))
  -- limit validation: `if (limit) { if (isNaN(...) || < 1 || > 200) throw }`
  if limit != "" &&
      (match jsParseInt limit with
       | none => true
       | some n => decide (n < 1) || decide (n > 200)) then
    Except.error (ParseError.invalidLimit limit)
  else
    let limitNum : Int :=
      min (match jsParseInt limit with
           | none => 10
           | some 0 => 10
           | some n => n) 200
    let sortDirection := if order = "asc" then SortDirection.asc else SortDirection.desc
    -- sort field validation against the four valid values
    if sort_by != "" && (SortField.ofStr sort_by).isNone then
      Except.error (ParseError.invalidSortBy sort_by)
    else
      -- `sort_by ? (sort_by as SortField) : SortField.KEY_HASH`
      let sortField := (SortField.ofStr sort_by).getD SortField.key_hash
      let mkResult (cd : Option CursorData) : RequestParams :=
        { contractId := contract_id
          cursor := q.cursor
          cursorData := cd
          limit := limitNum
          sortDirection := sortDirection
          sortField := sortField
          sortDbField := APIFieldToDBFieldMap sortField }
      match q.cursor with
      | none => Except.ok (mkResult none)
      | some w =>
        if w.truthy then
          match decodeCursor w with
          | none => Except.error ParseError.invalidCursor
          | some cd =>
            if (cd.sortField.getD "key_hash") ≠ sortField.toStr then
              Except.error
                (ParseError.cursorMismatch "sort_by" sortField.toStr cd.sortField)
            else Except.ok (mkResult (some cd))
        else Except.ok (mkResult none)

/-! ## Pagination link builder

Embedding of `extractSortValue` and `buildPaginationLinks` from
`src/helpers/cursor.ts`. -/

/-- The `extractSortValue` helper: reads `record[sortDbField]` and converts
a `Date` to whole Unix seconds (`Math.floor(getTime() / 1000)`; exact here
because `closed_at` is carried in whole seconds, see the header note).  A
null `live_until_ledger_sequence` passes through as JS `null`. -/
def extractSortValue (record : Row) : SortDbField → JsPrim
  | .durability => .str record.durability
  | .key_hash => .str record.key_hash
  | .live_until_ledger_sequence =>
    match record.live_until_ledger_sequence with
    | none => .nullVal
    | some n => .num n
  | .closed_at => .num record.closed_at

/-- The cursor object `buildPaginationLinks` passes to `encodeCursor` for
a boundary row of the page: the sort field and the row's sort-column value
are included exactly when the sort is not by `key_hash`. -/
def boundaryCursor (cursorType : String) (f : SortField) (dbf : SortDbField)
    (record : Row) : CursorData :=
  { cursorType := cursorType
    sortField := if f ≠ SortField.key_hash then some f.toStr else none
    position :=
      { keyHash := record.key_hash
        sortValue :=
          if f ≠ SortField.key_hash then some (extractSortValue record dbf)
          else none } }

/-- The query parameters carried by one pagination link.  The href string
rendering (`URLSearchParams`) is abstracted; `cursor` is the wire cursor
attached to the link (`none` when the falsy-check drops it). -/
structure LinkParams where
  order : SortDirection
  limit : Int
  sort_by : Option SortField
  cursor : Option CursorWire

/-- The `PaginationLinks` result shape (`self` always, `next`/`prev`
optional). -/
structure PaginationLinks where
  self : LinkParams
  next : Option LinkParams
  prev : Option LinkParams

/-- The `buildPaginationLinks` function of `src/helpers/cursor.ts`:
`self` echoes the current parameters (with `sort_by` only when it is not
the default `key_hash`, and the request cursor only when truthy); `next`
is added when `results.length >= limit`, carrying a `"next"` cursor built
from the last row; `prev` is added when the request cursor is truthy and
the page is non-empty, carrying a `"prev"` cursor built from the first
row.  A freshly encoded cursor reaches the link as the wire string that
parses back to `encodeCursor ...`, i.e. `CursorWire.parsed`.
`requestCursorTruthy` is the `if (cursor)` truthiness test on the raw
request cursor string. -/
def requestCursorTruthy (rp : RequestParams) : Bool :=
  match rp.cursor with
  | none => false
  | some w => w.truthy

/-- The `buildPaginationLinks` function of `src/helpers/cursor.ts`. -/
def buildPaginationLinks (rp : RequestParams) (results : List Row) :
    PaginationLinks :=
  let cursorTruthy : Bool := requestCursorTruthy rp
  let queryParams : LinkParams :=
    { order := rp.sortDirection
      limit := rp.limit
      sort_by := if rp.sortField ≠ SortField.key_hash then some rp.sortField else none
      cursor := if cursorTruthy then rp.cursor else none }
  let next : Option LinkParams :=
    if (results.length : Int) ≥ rp.limit then
      -- `results[results.length - 1]`; the page is non-empty whenever
      -- `limit >= 1`, which the parser guarantees.
      match results.getLast? with
      | some lastRecord =>
        let nextCursor := encodeCursor
          (boundaryCursor "next" rp.sortField rp.sortDbField lastRecord)
        some { queryParams with cursor := some (CursorWire.parsed nextCursor) }
      | none => none
    else none
  let prev : Option LinkParams :=
    match results.head? with
    | some firstRecord =>
      if cursorTruthy then
        let prevCursor := encodeCursor
          (boundaryCursor "prev" rp.sortField rp.sortDbField firstRecord)
        some { queryParams with cursor := some (CursorWire.parsed prevCursor) }
      else none
    | none => none
  { self := queryParams, next := next, prev := prev }

/-! ## Query builder

Embedding of `src/query-builders/contract_data.ts`.  The `Prisma.Sql`
fragments are given their executable relational semantics over a table
`List Row`: `colValue` reads the ORDER-BY/comparison column, `rowLe` is
the row comparison denoted by the `orderBy` clause (primary column with
`NULLS LAST`/`NULLS FIRST` positioning, then `key_hash`, both in the query
direction), and the cursor WHERE fragments become Boolean row
predicates with SQL three-valued logic (`NULL` comparisons unsatisfied). -/

/-- A SQL value of one of the sortable columns (`text`, numeric/timestamp,
or NULL). -/
inductive ColVal where
  | s (v : String)
  | n (v : Int)
  | nullV
deriving DecidableEq, Repr

/-- The value of a sort DB column in a row. -/
def colValue (f : SortDbField) (r : Row) : ColVal :=
  match f with
  | .durability => .s r.durability
  | .key_hash => .s r.key_hash
  | .live_until_ledger_sequence =>
    match r.live_until_ledger_sequence with
    | none => .nullV
    | some v => .n v
  | .closed_at => .n r.closed_at

/-- The `NULLABLE_SORT_DB_FIELDS` set. -/
def nullableSortDbField (f : SortDbField) : Bool :=
  f = SortDbField.live_until_ledger_sequence

/-- Three-way comparison in a linear order. -/
def cmpv {α : Type} [LinearOrder α] (a b : α) : Ordering :=
  if a < b then .lt else if a = b then .eq else .gt

/-- Executable three-way lexicographic comparison of character lists
(SQL `text` comparison; agrees with the `String` linear order, proved
below). -/
def strCmpB : List Char → List Char → Ordering
  | [], [] => .eq
  | [], _ :: _ => .lt
  | _ :: _, [] => .gt
  | a :: as, b :: bs =>
    if a < b then .lt else if b < a then .gt else strCmpB as bs

/-- Executable three-way comparison of strings. -/
def strCmp (a b : String) : Ordering :=
  strCmpB a.data b.data

/-- Ascending SQL comparison of two same-column values with NULLS LAST
(a NULL sorts after every non-null value; the `ASC NULLS LAST` of
`orderBy`, whose exact reverse is `DESC NULLS FIRST`).  Values of one
column never mix strings and numbers; the cross-type branches are
arbitrary. -/
def valCmpAsc : ColVal → ColVal → Ordering
  | .nullV, .nullV => .eq
  | .nullV, _ => .gt
  | _, .nullV => .lt
  | .n a, .n b => cmpv a b
  | .s a, .s b => strCmp a b
  | .n _, .s _ => .lt
  | .s _, .n _ => .gt

/-- Row comparison denoted by the `orderBy` clause for direction ASC:
`ORDER BY key_hash ASC` when sorting by `key_hash`, otherwise
`ORDER BY col ASC NULLS LAST, key_hash ASC`. -/
def rowCmpAsc (f : SortField) (a b : Row) : Ordering :=
  match f with
  | .key_hash => strCmp a.key_hash b.key_hash
  | _ =>
    (valCmpAsc (colValue (APIFieldToDBFieldMap f) a) (colValue (APIFieldToDBFieldMap f) b)).then
      (strCmp a.key_hash b.key_hash)

/-- Row comparison for a direction: DESC (with NULLS FIRST on the nullable
column and key_hash DESC) is the exact reverse of ASC. -/
def rowCmp (f : SortField) (d : SortDirection) (a b : Row) : Ordering :=
  match d with
  | .asc => rowCmpAsc f a b
  | .desc => rowCmpAsc f b a

/-- The non-strict ORDER-BY relation: `a` may come before `b`. -/
def rowLe (f : SortField) (d : SortDirection) (a b : Row) : Prop :=
  rowCmp f d a b ≠ .gt

/-- The strict ORDER-BY relation: `a` comes strictly before `b`. -/
def rowLt (f : SortField) (d : SortDirection) (a b : Row) : Prop :=
  rowCmp f d a b = .lt

instance (f : SortField) (d : SortDirection) : DecidableRel (rowLe f d) :=
  fun a b => inferInstanceAs (Decidable (rowCmp f d a b ≠ .gt))

instance (f : SortField) (d : SortDirection) : DecidableRel (rowLt f d) :=
  fun a b => inferInstanceAs (Decidable (rowCmp f d a b = .lt))

/-- Semantics of `ORDER BY`: the table rows arranged per the `orderBy`
clause (any correct sort; the order is a strict total order on rows with
distinct `key_hash`, so the arrangement is unique). -/
def sortRows (f : SortField) (d : SortDirection) (l : List Row) : List Row :=
  List.insertionSort (rowLe f d) l

/-- The comparison operator of the cursor predicate (`op`). -/
inductive SqlOp where
  | gt
  | lt
deriving DecidableEq, Repr

/-- SQL comparison `a OP b` under three-valued logic: a comparison with
NULL is never satisfied. -/
def sqlCmp (op : SqlOp) (a b : ColVal) : Bool :=
  match a, b with
  | .nullV, _ => false
  | _, .nullV => false
  | .n x, .n y => match op with | .gt => x > y | .lt => x < y
  | .s x, .s y => match op with | .gt => strCmp x y = Ordering.gt | .lt => strCmp x y = Ordering.lt
  | _, _ => false

/-- SQL equality `a = b` (never satisfied on NULL). -/
def sqlEq (a b : ColVal) : Bool :=
  match a, b with
  | .n x, .n y => x = y
  | .s x, .s y => x = y
  | _, _ => false

/-- SQL string comparison for the `cd.key_hash OP cursorKeyHash`
tie-break. -/
def sqlStrCmp (op : SqlOp) (a b : String) : Bool :=
  match op with
  | .gt => strCmp a b = Ordering.gt
  | .lt => strCmp a b = Ordering.lt

/-- The `toSqlSortValue` helper: a `closed_at` cursor value is a Unix
timestamp converted back via `to_timestamp` (the identity in the
whole-seconds model); other values bind directly. -/
def toSqlSortValue (v : JsPrim) : ColVal :=
  match v with
  | .num n => .n n
  | .str s => .s s
  | .bigintVal n => .n n
  | .nullVal => .nullV

/-- The `buildNullAwareCursorCondition` WHERE fragment as a predicate on a
candidate row.  Literal translation of the four branches of the source:
non-null cursor value gives the keyset comparison, `OR col IS NULL` added
for a nullable column when `op` is `>`; a null cursor value stays inside
the NULL group for `op` `>`, and takes all non-NULL rows plus earlier
NULLs for `op` `<`. -/
def buildNullAwareCursorCondition (f : SortDbField) (op : SqlOp)
    (cursorKeyHash : String) (cursorSortValue : JsPrim) (r : Row) : Bool :=
  let col := colValue f r
  if cursorSortValue ≠ JsPrim.nullVal then
    let v := toSqlSortValue cursorSortValue
    let base := sqlCmp op col v || (sqlEq col v && sqlStrCmp op r.key_hash cursorKeyHash)
    if nullableSortDbField f ∧ op = SqlOp.gt then
      base || col = ColVal.nullV
    else base
  else
    match op with
    | .gt => col = ColVal.nullV && sqlStrCmp .gt r.key_hash cursorKeyHash
    | .lt => col ≠ ColVal.nullV || (col = ColVal.nullV && sqlStrCmp .lt r.key_hash cursorKeyHash)

/-- Inversion of a sort direction (the
`sortDirection === ASC ? DESC : ASC` ternary). -/
def invertDirection : SortDirection → SortDirection
  | .asc => .desc
  | .desc => .asc

/-- CTE fetch direction (`directionInCTE`): the requested direction for a
`"next"` cursor, its inverse for anything else (the decoded `cursorType`
is `"next"` or `"prev"`). -/
def directionInCTE (cursorType : String) (d : SortDirection) : SortDirection :=
  if cursorType = "next" then d else invertDirection d

/-- The comparison operator for an effective direction
(`op = directionInCTE === DESC ? "<" : ">"`). -/
def opOf (d : SortDirection) : SqlOp :=
  match d with
  | .desc => .lt
  | .asc => .gt

/-- The first-page query (`queryWithoutCursor`): all rows of the contract,
ordered by the requested sort, limited. -/
def queryWithoutCursor (tbl : List Row) (contractId : String) (limit : Nat)
    (f : SortField) (d : SortDirection) : List Row :=
  (sortRows f d (tbl.filter (fun r => r.contract_id = contractId))).take limit

/-- The cursor-paginated query for a non-`key_hash` sort
(`queryWithCursorSortField`): the CTE filters the contract's rows by the
null-aware cursor condition, orders them in the effective direction,
takes `limit`, and the outer SELECT re-orders the page in the requested
direction. -/
def queryWithCursorSortField (tbl : List Row) (contractId : String) (limit : Nat)
    (f : SortField) (d : SortDirection) (cursorKeyHash : String)
    (cursorSortValue : JsPrim) (cursorType : String) : List Row :=
  let dCTE := directionInCTE cursorType d
  let op := opOf dCTE
  let cte :=
    (sortRows f dCTE
      (tbl.filter (fun r =>
        r.contract_id = contractId &&
          buildNullAwareCursorCondition (APIFieldToDBFieldMap f) op
            cursorKeyHash cursorSortValue r))).take limit
  sortRows f d cte

/-- The cursor-paginated query for the `key_hash` sort
(`queryWithCursorKeyHash`): the CTE condition is the simple
`cd.key_hash OP cursorKeyHash`. -/
def queryWithCursorKeyHash (tbl : List Row) (contractId : String) (limit : Nat)
    (f : SortField) (d : SortDirection) (cursorKeyHash : String)
    (cursorType : String) : List Row :=
  let dCTE := directionInCTE cursorType d
  let op := opOf dCTE
  let cte :=
    (sortRows f dCTE
      (tbl.filter (fun r =>
        r.contract_id = contractId && sqlStrCmp op r.key_hash cursorKeyHash))).take limit
  sortRows f d cte

/-- The configuration consumed by `buildContractDataQuery`
(`ContractDataQueryConfig`; `latestLedgerSequence` only feeds the derived
`expired` output column, which no claim concerns, and is omitted). -/
structure ContractDataQueryConfig where
  contractId : String
  cursorData : Option CursorData
  limit : Nat
  sortDirection : SortDirection
  sortField : SortField

/-- The `buildContractDataQuery` dispatcher, composed with query
execution against the table `tbl`: no cursor gives the first-page query; a
cursor whose `sortField` is absent, `"key_hash"`, or lacks a `sortValue`
gives the key-hash query; otherwise the combined sort-field query runs
with the cursor's position. -/
def buildContractDataQuery (tbl : List Row) (config : ContractDataQueryConfig) :
    List Row :=
  match config.cursorData with
  | none =>
    queryWithoutCursor tbl config.contractId config.limit
      config.sortField config.sortDirection
  | some cd =>
    -- `hasCursorSortField`: `sortField` defined, not KEY_HASH, `sortValue`
    -- defined; otherwise fall back to the key-hash-only cursor query.
    match cd.sortField, cd.position.sortValue with
    | some sf, some sv =>
      if sf = "key_hash" then
        queryWithCursorKeyHash tbl config.contractId config.limit
          config.sortField config.sortDirection cd.position.keyHash cd.cursorType
      else
        queryWithCursorSortField tbl config.contractId config.limit
          config.sortField config.sortDirection cd.position.keyHash sv cd.cursorType
    | _, _ =>
      queryWithCursorKeyHash tbl config.contractId config.limit
        config.sortField config.sortDirection cd.position.keyHash cd.cursorType

/-! ## Order theory for the ORDER BY semantics

Each row is mapped to a sort key in a lexicographic linear order so that
the `Ordering`-valued comparison `rowCmp` coincides with three-way
comparison of keys; all structural properties (totality, transitivity,
uniqueness of sorted arrangements) then follow from the linear order. -/

/-- Sort key of a single column value: rank (numbers < strings < NULL,
matching `valCmpAsc`) with the payload. -/
def colKey : ColVal → ℕ ×ₗ (ℤ ×ₗ String)
  | .n v => toLex (0, toLex (v, ""))
  | .s v => toLex (1, toLex (0, v))
  | .nullV => toLex (2, toLex (0, ""))

/-- The full sort key of a row for a sort field: column value, then
`key_hash`. -/
abbrev RowKeyT : Type := (ℕ ×ₗ (ℤ ×ₗ String)) ×ₗ String

/-- Sort key of a row under a sort field. -/
def rowKey (f : SortField) (r : Row) : RowKeyT :=
  toLex (colKey (colValue (APIFieldToDBFieldMap f) r), r.key_hash)

/-- Key-hash projection of a row list. -/
def keyHashes (l : List Row) : List String := l.map Row.key_hash

/-- The rows of one contract (`WHERE cd.contract_id = ...`). -/
def contractRows (tbl : List Row) (contractId : String) : List Row :=
  tbl.filter (fun r => r.contract_id = contractId)

/-- The `k`-th page of the contract's rows under a sort: rows
`k*L .. k*L+L-1` of the sorted arrangement. -/
def pageSeq (tbl : List Row) (cid : String) (f : SortField) (d : SortDirection)
    (L k : ℕ) : List Row :=
  ((sortRows f d (contractRows tbl cid)).drop (k * L)).take L

/-! ## Concrete data: the five-row scenario of spec §8 -/

/-- Row with ttl 901. -/
def row901 : Row := ⟨"C", "11", "persistent", 1001, some 901⟩

/-- Row with ttl 902. -/
def row902 : Row := ⟨"C", "22", "persistent", 1002, some 902⟩

/-- Row with ttl 903. -/
def row903 : Row := ⟨"C", "33", "persistent", 1003, some 903⟩

/-- Null-ttl row with key hash prefix `aa`. -/
def rowAA : Row := ⟨"C", "aa", "persistent", 1004, none⟩

/-- Null-ttl row with key hash prefix `bb`. -/
def rowBB : Row := ⟨"C", "bb", "persistent", 1005, none⟩

/-- The five-row contract of the spec §8 concrete scenario: three distinct
non-null ttl values and two null-ttl rows. -/
def sampleRows : List Row := [row903, rowBB, row901, rowAA, row902]

/-- The request parameters of the page-2 request in the §8 scenario
(`sort_by=ttl&order=asc&limit=2` with the next cursor of page 1). -/
def rpPage2 : RequestParams :=
  { contractId := "C"
    cursor := some (CursorWire.parsed
      (encodeCursor (boundaryCursor "next" .ttl .live_until_ledger_sequence row902)))
    cursorData := some (boundaryCursor "next" .ttl .live_until_ledger_sequence row902)
    limit := 2
    sortDirection := .asc
    sortField := .ttl
    sortDbField := .live_until_ledger_sequence }

/-- Amended C6 (spec-side definition, following the amended claim's words):
a decoded cursor document is accepted exactly when its `cursorType` is
`"next"` or `"prev"`, its `sortField` is absent or any string, and its
`position` is an object with a string `keyHash` and a `sortValue` that is
absent, a number, or a string — with no sort-field whitelist, no required
`sortValue`, no per-field value-type matching, and explicit `null` always
rejected (including for `ttl`).  `positionSpecOk` is its `position`
clause. -/
def positionSpecOk (fields : List (String × Json)) : Bool :=
  match Json.lookup fields "position" with
  | some (Json.obj pos) =>
    (match Json.lookup pos "keyHash" with
     | some (Json.str _) => true
     | _ => false) &&
    (match Json.lookup pos "sortValue" with
     | none => true
     | some (Json.num _) => true
     | some (Json.str _) => true
     | some _ => false)
  | _ => false

/-- Amended C6 (spec-side definition): the acceptance predicate in the
amended claim's words. -/
def cursorSchemaSpec (j : Json) : Bool :=
  match j with
  | Json.obj fields =>
    (match Json.lookup fields "cursorType" with
     | some (Json.str ct) => ct = "next" || ct = "prev"
     | _ => false) &&
    (match Json.lookup fields "sortField" with
     | none => true
     | some (Json.str _) => true
     | some _ => false) &&
    positionSpecOk fields
  | _ => false

theorem cmpv_eq_lt {α : Type} [LinearOrder α] {a b : α} :
    cmpv a b = .lt ↔ a < b := by
  unfold cmpv
  rcases lt_trichotomy a b with h | h | h
  · simp [h]
  · simp [h, lt_irrefl]
  · simp [not_lt_of_gt h, ne_of_gt h, h]

theorem cmpv_eq_eq {α : Type} [LinearOrder α] {a b : α} :
    cmpv a b = .eq ↔ a = b := by
  unfold cmpv
  rcases lt_trichotomy a b with h | h | h
  · simp [h, ne_of_lt h]
  · simp [h, lt_irrefl]
  · simp [not_lt_of_gt h, ne_of_gt h]

theorem cmpv_eq_gt {α : Type} [LinearOrder α] {a b : α} :
    cmpv a b = .gt ↔ b < a := by
  unfold cmpv
  rcases lt_trichotomy a b with h | h | h
  · simp [h, not_lt_of_gt h]
  · simp [h, lt_irrefl]
  · simp [not_lt_of_gt h, ne_of_gt h, h]

theorem strCmpB_eq_iff : ∀ {as bs : List Char}, strCmpB as bs = .eq ↔ as = bs := by
  intro as
  induction as with
  | nil => intro bs; cases bs <;> simp [strCmpB]
  | cons a as ih =>
    intro bs
    cases bs with
    | nil => simp [strCmpB]
    | cons b bs =>
      by_cases h1 : a < b
      · simp [strCmpB, h1, ne_of_lt h1]
      · by_cases h2 : b < a
        · simp [strCmpB, h1, h2, (ne_of_lt h2).symm]
        · have hab : a = b := le_antisymm (not_lt.mp h2) (not_lt.mp h1)
          subst hab
          simp [strCmpB, h1, ih]

theorem strCmpB_lt_iff : ∀ {as bs : List Char},
    strCmpB as bs = .lt ↔ List.Lex (· < ·) as bs := by
  intro as
  induction as with
  | nil =>
    intro bs
    cases bs with
    | nil =>
      simp only [strCmpB]
      constructor
      · intro h; exact absurd h (by decide)
      · intro h; cases h
    | cons b bs =>
      simp only [strCmpB, true_iff]
      exact List.Lex.nil
  | cons a as ih =>
    intro bs
    cases bs with
    | nil =>
      simp only [strCmpB]
      constructor
      · intro h; exact absurd h (by decide)
      · intro h; cases h
    | cons b bs =>
      by_cases h1 : a < b
      · simp only [strCmpB, h1, if_true, true_iff]
        exact List.Lex.rel h1
      · by_cases h2 : b < a
        · simp only [strCmpB, h1, if_false, h2, if_true]
          constructor
          · intro h; exact absurd h (by decide)
          · intro h
            cases h with
            | cons h => exact absurd h2 (lt_irrefl a)
            | rel h => exact absurd h h1
        · have hab : a = b := le_antisymm (not_lt.mp h2) (not_lt.mp h1)
          subst hab
          simp only [strCmpB, lt_irrefl, if_false]
          rw [ih]
          constructor
          · exact fun h => List.Lex.cons h
          · intro h
            cases h with
            | cons h => exact h
            | rel h => exact absurd h (lt_irrefl a)

theorem strCmpB_gt_iff : ∀ {as bs : List Char},
    strCmpB as bs = .gt ↔ List.Lex (· < ·) bs as := by
  intro as
  induction as with
  | nil =>
    intro bs
    cases bs with
    | nil =>
      simp only [strCmpB]
      constructor
      · intro h; exact absurd h (by decide)
      · intro h; cases h
    | cons b bs =>
      simp only [strCmpB]
      constructor
      · intro h; exact absurd h (by decide)
      · intro h; cases h
  | cons a as ih =>
    intro bs
    cases bs with
    | nil =>
      simp only [strCmpB, true_iff]
      exact List.Lex.nil
    | cons b bs =>
      by_cases h1 : a < b
      · simp only [strCmpB, h1, if_true]
        constructor
        · intro h; exact absurd h (by decide)
        · intro h
          cases h with
          | cons h => exact absurd h1 (lt_irrefl a)
          | rel h => exact absurd h1 (not_lt_of_gt h)
      · by_cases h2 : b < a
        · simp only [strCmpB, h1, if_false, h2, if_true, true_iff]
          exact List.Lex.rel h2
        · have hab : a = b := le_antisymm (not_lt.mp h2) (not_lt.mp h1)
          subst hab
          simp only [strCmpB, lt_irrefl, if_false]
          rw [ih]
          constructor
          · exact fun h => List.Lex.cons h
          · intro h
            cases h with
            | cons h => exact h
            | rel h => exact absurd h (lt_irrefl a)

/-- The executable string comparison agrees with three-way comparison in
the `String` linear order. -/
theorem strCmp_eq_cmpv (a b : String) : strCmp a b = cmpv a b := by
  rcases lt_trichotomy a b with h | h | h
  · rw [cmpv_eq_lt.mpr h, strCmp, strCmpB_lt_iff]
    exact String.lt_iff_toList_lt.mp h
  · subst h
    rw [cmpv_eq_eq.mpr rfl, strCmp, strCmpB_eq_iff]
  · rw [cmpv_eq_gt.mpr h, strCmp, strCmpB_gt_iff]
    exact String.lt_iff_toList_lt.mp h

theorem strCmp_gt_true_iff {x y : String} :
    (decide (strCmp x y = Ordering.gt)) = true ↔ y < x := by
  rw [decide_eq_true_eq, strCmp_eq_cmpv]
  exact cmpv_eq_gt

theorem strCmp_lt_true_iff {x y : String} :
    (decide (strCmp x y = Ordering.lt)) = true ↔ x < y := by
  rw [decide_eq_true_eq, strCmp_eq_cmpv]
  exact cmpv_eq_lt

theorem strCmp_eq_lt_iff {x y : String} : strCmp x y = Ordering.lt ↔ x < y := by
  rw [strCmp_eq_cmpv]; exact cmpv_eq_lt

theorem strCmp_eq_eq_iff {x y : String} : strCmp x y = Ordering.eq ↔ x = y := by
  rw [strCmp_eq_cmpv]; exact cmpv_eq_eq

theorem strCmp_eq_gt_iff {x y : String} : strCmp x y = Ordering.gt ↔ y < x := by
  rw [strCmp_eq_cmpv]; exact cmpv_eq_gt

theorem then_eq_lt {o p : Ordering} :
    o.then p = .lt ↔ o = .lt ∨ (o = .eq ∧ p = .lt) := by
  cases o <;> simp [Ordering.then]

theorem then_eq_eq {o p : Ordering} :
    o.then p = .eq ↔ o = .eq ∧ p = .eq := by
  cases o <;> simp [Ordering.then]

theorem then_eq_gt {o p : Ordering} :
    o.then p = .gt ↔ o = .gt ∨ (o = .eq ∧ p = .gt) := by
  cases o <;> simp [Ordering.then]

/-- Three-way comparison on a lexicographic pair is `Ordering.then` of the
component comparisons. -/
theorem cmpv_lex {α β : Type} [LinearOrder α] [LinearOrder β]
    (a₁ b₁ : α) (a₂ b₂ : β) :
    cmpv (toLex (a₁, a₂)) (toLex (b₁, b₂)) = (cmpv a₁ b₁).then (cmpv a₂ b₂) := by
  rcases lt_trichotomy a₁ b₁ with h | h | h
  · have hlt : toLex (a₁, a₂) < toLex (b₁, b₂) := by
      rw [Prod.Lex.lt_iff]; exact Or.inl h
    rw [cmpv_eq_lt.mpr hlt, cmpv_eq_lt.mpr h]
    rfl
  · subst h
    rcases lt_trichotomy a₂ b₂ with h2 | h2 | h2
    · have hlt : toLex (a₁, a₂) < toLex (a₁, b₂) := by
        rw [Prod.Lex.lt_iff]; exact Or.inr ⟨rfl, h2⟩
      rw [cmpv_eq_lt.mpr hlt, cmpv_eq_eq.mpr rfl, cmpv_eq_lt.mpr h2]
      rfl
    · subst h2
      rw [cmpv_eq_eq.mpr rfl, cmpv_eq_eq.mpr rfl, cmpv_eq_eq.mpr rfl]
      rfl
    · have hgt : toLex (a₁, b₂) < toLex (a₁, a₂) := by
        rw [Prod.Lex.lt_iff]; exact Or.inr ⟨rfl, h2⟩
      rw [cmpv_eq_gt.mpr hgt, cmpv_eq_eq.mpr rfl, cmpv_eq_gt.mpr h2]
      rfl
  · have hgt : toLex (b₁, b₂) < toLex (a₁, a₂) := by
      rw [Prod.Lex.lt_iff]; exact Or.inl h
    rw [cmpv_eq_gt.mpr hgt, cmpv_eq_gt.mpr h]
    rfl

theorem cmpv_self {α : Type} [LinearOrder α] (a : α) : cmpv a a = .eq :=
  cmpv_eq_eq.mpr rfl

theorem lt_then (o : Ordering) : Ordering.lt.then o = .lt := rfl

theorem eq_then (o : Ordering) : Ordering.eq.then o = o := rfl

theorem gt_then (o : Ordering) : Ordering.gt.then o = .gt := rfl

/-- The column comparison is three-way comparison of column keys. -/
theorem valCmpAsc_eq_cmpv (a b : ColVal) :
    valCmpAsc a b = cmpv (colKey a) (colKey b) := by
  have h01 : cmpv (0 : ℕ) 1 = .lt := by decide
  have h02 : cmpv (0 : ℕ) 2 = .lt := by decide
  have h10 : cmpv (1 : ℕ) 0 = .gt := by decide
  have h12 : cmpv (1 : ℕ) 2 = .lt := by decide
  have h20 : cmpv (2 : ℕ) 0 = .gt := by decide
  have h21 : cmpv (2 : ℕ) 1 = .gt := by decide
  have hthen : ∀ o : Ordering, o.then .eq = o := fun o => by cases o <;> rfl
  cases a <;> cases b <;>
    simp only [valCmpAsc, strCmp_eq_cmpv, colKey, cmpv_lex, cmpv_self, h01, h02, h10,
      h12, h20, h21, lt_then, eq_then, gt_then, hthen]

/-- The ascending row comparison is three-way comparison of row keys. -/
theorem rowCmpAsc_eq_cmpv (f : SortField) (a b : Row) :
    rowCmpAsc f a b = cmpv (rowKey f a) (rowKey f b) := by
  cases f <;>
    simp only [rowCmpAsc, strCmp_eq_cmpv, rowKey, cmpv_lex, valCmpAsc_eq_cmpv,
      APIFieldToDBFieldMap]
  case key_hash =>
    simp only [colValue, colKey, cmpv_lex]
    rcases lt_trichotomy a.key_hash b.key_hash with h | h | h
    · rw [cmpv_eq_lt.mpr h]; rfl
    · rw [h, cmpv_eq_eq.mpr rfl]; rfl
    · rw [cmpv_eq_gt.mpr h]; rfl

theorem rowLt_asc_iff {f : SortField} {a b : Row} :
    rowLt f .asc a b ↔ rowKey f a < rowKey f b := by
  rw [rowLt, rowCmp, rowCmpAsc_eq_cmpv, cmpv_eq_lt]

theorem rowLt_desc_iff {f : SortField} {a b : Row} :
    rowLt f .desc a b ↔ rowKey f b < rowKey f a := by
  rw [rowLt, rowCmp, rowCmpAsc_eq_cmpv, cmpv_eq_lt]

theorem rowLe_asc_iff {f : SortField} {a b : Row} :
    rowLe f .asc a b ↔ rowKey f a ≤ rowKey f b := by
  rw [rowLe, rowCmp, rowCmpAsc_eq_cmpv, ← not_lt]
  exact not_congr cmpv_eq_gt

theorem rowLe_desc_iff {f : SortField} {a b : Row} :
    rowLe f .desc a b ↔ rowKey f b ≤ rowKey f a := by
  rw [rowLe, rowCmp, rowCmpAsc_eq_cmpv, ← not_lt]
  exact not_congr cmpv_eq_gt

/-- Rows comparing equal under any sort have the same `key_hash`. -/
theorem keyHash_eq_of_rowCmp_eq {f : SortField} {d : SortDirection} {a b : Row}
    (h : rowCmp f d a b = .eq) : a.key_hash = b.key_hash := by
  have key_eq : rowKey f a = rowKey f b := by
    cases d <;>
      simp only [rowCmp, rowCmpAsc_eq_cmpv, cmpv_eq_eq] at h
    · exact h
    · exact h.symm
  have := congrArg (fun k => (ofLex k).2) key_eq
  simpa [rowKey] using this

/-- The effect of inverting the direction: the strict order flips. -/
theorem rowLt_invert {f : SortField} {a b : Row} {d : SortDirection} :
    rowLt f (invertDirection d) a b ↔ rowLt f d b a := by
  cases d <;> simp [rowLt, rowCmp, invertDirection]

instance rowLe_total (f : SortField) (d : SortDirection) : IsTotal Row (rowLe f d) where
  total a b := by
    cases d
    · rw [rowLe_asc_iff, rowLe_asc_iff]; exact le_total _ _
    · rw [rowLe_desc_iff, rowLe_desc_iff]; exact le_total _ _

instance rowLe_trans (f : SortField) (d : SortDirection) : IsTrans Row (rowLe f d) where
  trans a b c := by
    cases d
    · rw [rowLe_asc_iff, rowLe_asc_iff, rowLe_asc_iff]; exact le_trans
    · rw [rowLe_desc_iff, rowLe_desc_iff, rowLe_desc_iff]
      intro h1 h2
      exact le_trans h2 h1

theorem rowLt_asymm {f : SortField} {d : SortDirection} {a b : Row}
    (h1 : rowLt f d a b) (h2 : rowLt f d b a) : False := by
  cases d
  · rw [rowLt_asc_iff] at h1 h2; exact absurd h1 (not_lt_of_gt h2)
  · rw [rowLt_desc_iff] at h1 h2; exact absurd h1 (not_lt_of_gt h2)

/-- A non-strict comparison between rows with distinct key hashes is
strict. -/
theorem rowLt_of_rowLe_of_ne {f : SortField} {d : SortDirection} {a b : Row}
    (h : rowLe f d a b) (hne : a.key_hash ≠ b.key_hash) : rowLt f d a b := by
  rw [rowLe] at h
  rw [rowLt]
  rcases hc : rowCmp f d a b with _ | _ | _
  · rfl
  · exact absurd (keyHash_eq_of_rowCmp_eq hc) hne
  · exact absurd hc h

/-! ## Generic list machinery for keyset pagination -/

/-- Two permuted lists that are both strictly sorted by an asymmetric
relation are equal. -/
theorem perm_pairwise_eq {α : Type} {lt : α → α → Prop}
    (asymm : ∀ a b, lt a b → lt b a → False) :
    ∀ {l₁ l₂ : List α}, l₁.Perm l₂ → l₁.Pairwise lt → l₂.Pairwise lt → l₁ = l₂ := by
  intro l₁
  induction l₁ with
  | nil => intro l₂ hp _ _; exact (hp.nil_eq).symm ▸ rfl
  | cons a t ih =>
    intro l₂ hp h₁ h₂
    match l₂ with
    | [] => exact absurd hp.symm (by simp)
    | b :: u =>
      have hab : a = b := by
        by_contra hne
        have hbmem : b ∈ a :: t := hp.mem_iff.mpr (List.mem_cons_self b u)
        have hamem : a ∈ b :: u := hp.mem_iff.mp (List.mem_cons_self a t)
        have hb : b ∈ t := by
          rcases List.mem_cons.mp hbmem with h | h
          · exact absurd h.symm hne
          · exact h
        have ha : a ∈ u := by
          rcases List.mem_cons.mp hamem with h | h
          · exact absurd h hne
          · exact h
        exact asymm a b ((List.pairwise_cons.mp h₁).1 b hb)
          ((List.pairwise_cons.mp h₂).1 a ha)
      subst hab
      have htu : t.Perm u := (List.perm_cons a).mp hp
      rw [ih htu (List.pairwise_cons.mp h₁).2 (List.pairwise_cons.mp h₂).2]

/-- In a strictly sorted decomposition `l₁ ++ r :: l₂`, filtering by a
predicate equivalent to "strictly after `r`" yields exactly `l₂`. -/
theorem filter_after_middle {α : Type} {lt : α → α → Prop}
    (asymm : ∀ a b, lt a b → lt b a → False)
    {p : α → Bool} {l₁ l₂ : List α} {r : α}
    (hs : (l₁ ++ r :: l₂).Pairwise lt)
    (hiff : ∀ x, p x = true ↔ lt r x) :
    (l₁ ++ r :: l₂).filter p = l₂ := by
  rw [List.filter_append, List.filter_cons]
  have hr : ¬ p r = true := fun h => asymm r r (hiff r |>.mp h) (hiff r |>.mp h)
  have h₁ : l₁.filter p = [] := by
    rw [List.filter_eq_nil_iff]
    intro x hx hpx
    have hlt : lt x r := by
      have := (List.pairwise_append.mp hs).2.2 x hx r (List.mem_cons_self r l₂)
      exact this
    exact asymm r x ((hiff x).mp hpx) hlt
  have h₂ : l₂.filter p = l₂ := by
    rw [List.filter_eq_self]
    intro x hx
    exact (hiff x).mpr ((List.pairwise_cons.mp (List.pairwise_append.mp hs).2.1).1 x hx)
  simp [h₁, h₂, hr]


/-- Sorting permutes the list. -/
theorem sortRows_perm (f : SortField) (d : SortDirection) (l : List Row) :
    (sortRows f d l).Perm l :=
  List.perm_insertionSort (rowLe f d) l

/-- The sorted arrangement of a table with distinct key hashes is strictly
sorted. -/
theorem sortRows_pairwise_lt (f : SortField) (d : SortDirection) {l : List Row}
    (hnd : (keyHashes l).Nodup) :
    (sortRows f d l).Pairwise (rowLt f d) := by
  have hle : (sortRows f d l).Pairwise (rowLe f d) :=
    List.sorted_insertionSort (rowLe f d) l
  have hnd2 : (keyHashes (sortRows f d l)).Nodup :=
    ((sortRows_perm f d l).map Row.key_hash).nodup_iff.mpr hnd
  have hne : (sortRows f d l).Pairwise (fun a b => a.key_hash ≠ b.key_hash) := by
    rw [keyHashes, List.Nodup, List.pairwise_map] at hnd2
    exact hnd2
  exact (hle.and hne).imp (fun h => rowLt_of_rowLe_of_ne h.1 h.2)

/-- Uniqueness: any strictly sorted arrangement of a table is the sorted
arrangement. -/
theorem sortRows_eq_of_pairwise {f : SortField} {d : SortDirection}
    {l s : List Row} (hnd : (keyHashes l).Nodup) (hperm : s.Perm l)
    (hs : s.Pairwise (rowLt f d)) : sortRows f d l = s := by
  refine perm_pairwise_eq (fun a b h1 h2 => rowLt_asymm h1 h2)
    ((sortRows_perm f d l).trans hperm.symm) ?_ hs
  exact sortRows_pairwise_lt f d hnd

/-- Strict comparison implies the non-strict one. -/
theorem rowLe_of_rowLt {f : SortField} {d : SortDirection} {a b : Row}
    (h : rowLt f d a b) : rowLe f d a b := by
  rw [rowLt] at h
  rw [rowLe, h]
  intro hc
  exact absurd hc (by simp)

/-- A list that is already strictly sorted is fixed by sorting. -/
theorem sortRows_eq_self {f : SortField} {d : SortDirection} {s : List Row}
    (hs : s.Pairwise (rowLt f d)) : sortRows f d s = s :=
  List.Sorted.insertionSort_eq (hs.imp rowLe_of_rowLt)

/-- Sorting a filtered table is filtering the sorted table. -/
theorem sortRows_filter (f : SortField) (d : SortDirection) {l : List Row}
    (hnd : (keyHashes l).Nodup) (p : Row → Bool) :
    sortRows f d (l.filter p) = (sortRows f d l).filter p := by
  have hndf : (keyHashes (l.filter p)).Nodup :=
    hnd.sublist (List.Sublist.map Row.key_hash (List.filter_sublist l))
  refine sortRows_eq_of_pairwise hndf ((sortRows_perm f d l).filter p) ?_
  exact (sortRows_pairwise_lt f d hnd).sublist (List.filter_sublist _)

/-- Sorting in the inverted direction reverses the sorted arrangement. -/
theorem sortRows_invert (f : SortField) (d : SortDirection) {l : List Row}
    (hnd : (keyHashes l).Nodup) :
    sortRows f (invertDirection d) l = (sortRows f d l).reverse := by
  refine sortRows_eq_of_pairwise hnd
    (((sortRows f d l).reverse_perm).trans (sortRows_perm f d l)) ?_
  rw [List.pairwise_reverse]
  exact (sortRows_pairwise_lt f d hnd).imp (fun h => rowLt_invert.mpr h)

/-! ## The cursor predicate is "strictly after the cursor row"

The keyset WHERE fragment emitted for a cursor taken from row `r` holds of
a candidate row `x` exactly when `x` comes strictly after `r` in the
effective ORDER BY. -/

theorem toSql_extract (dbf : SortDbField) (r : Row) :
    toSqlSortValue (extractSortValue r dbf) = colValue dbf r := by
  cases dbf
  case durability => rfl
  case key_hash => rfl
  case closed_at => rfl
  case live_until_ledger_sequence =>
    rcases hl : r.live_until_ledger_sequence with _ | v <;>
      simp [extractSortValue, toSqlSortValue, colValue, hl]

theorem extract_null_iff (dbf : SortDbField) (r : Row) :
    extractSortValue r dbf = JsPrim.nullVal ↔ colValue dbf r = ColVal.nullV := by
  cases dbf
  case durability => simp [extractSortValue, colValue]
  case key_hash => simp [extractSortValue, colValue]
  case closed_at => simp [extractSortValue, colValue]
  case live_until_ledger_sequence =>
    rcases hl : r.live_until_ledger_sequence with _ | v <;>
      simp [extractSortValue, colValue, hl]

theorem rowLt_asc_iff_val {f : SortField} (hf : f ≠ .key_hash) {r x : Row} :
    rowLt f .asc r x ↔
      (valCmpAsc (colValue (APIFieldToDBFieldMap f) r) (colValue (APIFieldToDBFieldMap f) x) = .lt ∨
        (valCmpAsc (colValue (APIFieldToDBFieldMap f) r) (colValue (APIFieldToDBFieldMap f) x) = .eq ∧
          r.key_hash < x.key_hash)) := by
  cases f
  case key_hash => exact absurd rfl hf
  all_goals
    simp [rowLt, rowCmp, rowCmpAsc, then_eq_lt, strCmp_eq_cmpv, cmpv_eq_lt]

theorem rowLt_desc_iff_val {f : SortField} (hf : f ≠ .key_hash) {r x : Row} :
    rowLt f .desc r x ↔
      (valCmpAsc (colValue (APIFieldToDBFieldMap f) x) (colValue (APIFieldToDBFieldMap f) r) = .lt ∨
        (valCmpAsc (colValue (APIFieldToDBFieldMap f) x) (colValue (APIFieldToDBFieldMap f) r) = .eq ∧
          x.key_hash < r.key_hash)) := by
  cases f
  case key_hash => exact absurd rfl hf
  all_goals
    simp [rowLt, rowCmp, rowCmpAsc, then_eq_lt, strCmp_eq_cmpv, cmpv_eq_lt]

/-- The null-aware cursor condition built from the boundary row `r` is
satisfied by `x` iff `x` is strictly after `r` in the effective ORDER BY
direction.  This is the keyset-pagination correctness core: it covers the
standard keyset comparison, the extra `IS NULL` disjunct when moving
toward the null group, and both null-boundary branches. -/
theorem cursorCondition_iff (f : SortField) (hf : f ≠ .key_hash)
    (d : SortDirection) (r x : Row) :
    buildNullAwareCursorCondition (APIFieldToDBFieldMap f) (opOf d) r.key_hash
      (extractSortValue r (APIFieldToDBFieldMap f)) x = true ↔ rowLt f d r x := by
  cases f
  case key_hash => exact absurd rfl hf
  case durability =>
    cases d
    · rw [rowLt_asc_iff_val (by decide)]
      simp only [buildNullAwareCursorCondition, opOf, nullableSortDbField,
        APIFieldToDBFieldMap, extractSortValue, toSqlSortValue, colValue, sqlCmp, sqlEq,
        sqlStrCmp, valCmpAsc, cmpv_eq_lt, cmpv_eq_eq, strCmp_eq_lt_iff, strCmp_eq_eq_iff,
        strCmp_eq_gt_iff]
      simp only [ne_eq, reduceCtorEq, not_false_eq_true, false_and, and_false, true_and,
        and_true, if_true, if_false, Bool.or_eq_true, Bool.and_eq_true,
        decide_eq_true_eq, gt_iff_lt]
      constructor
      · rintro (h | ⟨h1, h2⟩)
        exacts [Or.inl h, Or.inr ⟨h1.symm, h2⟩]
      · rintro (h | ⟨h1, h2⟩)
        exacts [Or.inl h, Or.inr ⟨h1.symm, h2⟩]
    · rw [rowLt_desc_iff_val (by decide)]
      simp only [buildNullAwareCursorCondition, opOf, nullableSortDbField,
        APIFieldToDBFieldMap, extractSortValue, toSqlSortValue, colValue, sqlCmp, sqlEq,
        sqlStrCmp, valCmpAsc, cmpv_eq_lt, cmpv_eq_eq, strCmp_eq_lt_iff, strCmp_eq_eq_iff,
        strCmp_eq_gt_iff]
      simp only [ne_eq, reduceCtorEq, not_false_eq_true, false_and, and_false, true_and,
        and_true, if_true, if_false, Bool.or_eq_true, Bool.and_eq_true,
        decide_eq_true_eq, gt_iff_lt]
  case updated_at =>
    cases d
    · rw [rowLt_asc_iff_val (by decide)]
      simp only [buildNullAwareCursorCondition, opOf, nullableSortDbField,
        APIFieldToDBFieldMap, extractSortValue, toSqlSortValue, colValue, sqlCmp, sqlEq,
        sqlStrCmp, valCmpAsc, cmpv_eq_lt, cmpv_eq_eq, strCmp_eq_lt_iff, strCmp_eq_eq_iff,
        strCmp_eq_gt_iff]
      simp only [ne_eq, reduceCtorEq, not_false_eq_true, false_and, and_false, true_and,
        and_true, if_true, if_false, Bool.or_eq_true, Bool.and_eq_true,
        decide_eq_true_eq, gt_iff_lt]
      constructor
      · rintro (h | ⟨h1, h2⟩)
        exacts [Or.inl h, Or.inr ⟨h1.symm, h2⟩]
      · rintro (h | ⟨h1, h2⟩)
        exacts [Or.inl h, Or.inr ⟨h1.symm, h2⟩]
    · rw [rowLt_desc_iff_val (by decide)]
      simp only [buildNullAwareCursorCondition, opOf, nullableSortDbField,
        APIFieldToDBFieldMap, extractSortValue, toSqlSortValue, colValue, sqlCmp, sqlEq,
        sqlStrCmp, valCmpAsc, cmpv_eq_lt, cmpv_eq_eq, strCmp_eq_lt_iff, strCmp_eq_eq_iff,
        strCmp_eq_gt_iff]
      simp only [ne_eq, reduceCtorEq, not_false_eq_true, false_and, and_false, true_and,
        and_true, if_true, if_false, Bool.or_eq_true, Bool.and_eq_true,
        decide_eq_true_eq, gt_iff_lt]
  case ttl =>
    rcases hr : r.live_until_ledger_sequence with _ | v
    · -- cursor boundary inside the NULL group
      cases d
      · rw [rowLt_asc_iff_val (by decide)]
        rcases hx : x.live_until_ledger_sequence with _ | w <;>
          simp [buildNullAwareCursorCondition, opOf, nullableSortDbField,
            APIFieldToDBFieldMap, extractSortValue, toSqlSortValue, colValue, sqlCmp,
            sqlEq, sqlStrCmp, valCmpAsc, cmpv_eq_lt, cmpv_eq_eq, strCmp_eq_lt_iff,
            strCmp_eq_eq_iff, strCmp_eq_gt_iff, hr, hx]
      · rw [rowLt_desc_iff_val (by decide)]
        rcases hx : x.live_until_ledger_sequence with _ | w <;>
          simp [buildNullAwareCursorCondition, opOf, nullableSortDbField,
            APIFieldToDBFieldMap, extractSortValue, toSqlSortValue, colValue, sqlCmp,
            sqlEq, sqlStrCmp, valCmpAsc, cmpv_eq_lt, cmpv_eq_eq, strCmp_eq_lt_iff,
            strCmp_eq_eq_iff, strCmp_eq_gt_iff, hr, hx]
    · -- cursor boundary at a non-null TTL
      cases d
      · rw [rowLt_asc_iff_val (by decide)]
        rcases hx : x.live_until_ledger_sequence with _ | w
        · simp [buildNullAwareCursorCondition, opOf, nullableSortDbField,
            APIFieldToDBFieldMap, extractSortValue, toSqlSortValue, colValue, sqlCmp,
            sqlEq, sqlStrCmp, valCmpAsc, cmpv_eq_lt, cmpv_eq_eq, strCmp_eq_lt_iff,
            strCmp_eq_eq_iff, strCmp_eq_gt_iff, hr, hx]
        · simp only [buildNullAwareCursorCondition, opOf, nullableSortDbField,
            APIFieldToDBFieldMap, extractSortValue, toSqlSortValue, colValue, sqlCmp,
            sqlEq, sqlStrCmp, valCmpAsc, cmpv_eq_lt, cmpv_eq_eq, strCmp_eq_lt_iff,
            strCmp_eq_eq_iff, strCmp_eq_gt_iff, hr, hx]
          simp only [ne_eq, reduceCtorEq, not_false_eq_true, false_and, and_false,
            true_and, and_true, if_true, if_false, Bool.or_eq_true, Bool.and_eq_true,
            decide_eq_true_eq, gt_iff_lt]
          constructor
          · rintro ((h | ⟨h1, h2⟩) | h)
            exacts [Or.inl h, Or.inr ⟨h1.symm, h2⟩, absurd h (by simp)]
          · rintro (h | ⟨h1, h2⟩)
            exacts [Or.inl (Or.inl h), Or.inl (Or.inr ⟨h1.symm, h2⟩)]
      · rw [rowLt_desc_iff_val (by decide)]
        rcases hx : x.live_until_ledger_sequence with _ | w <;>
          simp only [buildNullAwareCursorCondition, opOf, nullableSortDbField,
            APIFieldToDBFieldMap, extractSortValue, toSqlSortValue, colValue, sqlCmp,
            sqlEq, sqlStrCmp, valCmpAsc, cmpv_eq_lt, cmpv_eq_eq, strCmp_eq_lt_iff,
            strCmp_eq_eq_iff, strCmp_eq_gt_iff, hr, hx] <;>
          simp only [ne_eq, reduceCtorEq, not_false_eq_true, false_and, and_false,
            true_and, and_true, if_true, if_false, Bool.or_eq_true, Bool.and_eq_true,
            decide_eq_true_eq, gt_iff_lt]

/-- The simple key-hash cursor condition is "strictly after `r`" for the
`key_hash` sort. -/
theorem keyHashCondition_iff (d : SortDirection) (r x : Row) :
    sqlStrCmp (opOf d) x.key_hash r.key_hash = true ↔ rowLt .key_hash d r x := by
  cases d <;>
    simp [sqlStrCmp, opOf, rowLt, rowCmp, rowCmpAsc, strCmp_eq_lt_iff, strCmp_eq_gt_iff,
      strCmp_eq_eq_iff, cmpv_eq_lt]

/-! ## Page-level correctness of the cursor queries -/


/-- Decomposition of a list around an indexed element. -/
theorem decomp_of_getElem {α : Type} {l : List α} {m : ℕ} {r : α}
    (h : l[m]? = some r) : l = l.take m ++ r :: l.drop (m + 1) := by
  obtain ⟨hm, he⟩ := List.getElem?_eq_some_iff.mp h
  conv_lhs => rw [← List.take_append_drop m l]
  rw [← List.getElem_cons_drop l m hm, he]

/-- The combined WHERE clause splits into contract filtering then cursor
filtering. -/
theorem filter_where_split (tbl : List Row) (cid : String) (p : Row → Bool) :
    tbl.filter (fun r => r.contract_id = cid && p r) = (contractRows tbl cid).filter p := by
  rw [contractRows, List.filter_filter]
  refine List.filter_congr ?_
  intro x _
  exact Bool.and_comm _ _

theorem directionInCTE_next (d : SortDirection) : directionInCTE "next" d = d := by
  simp [directionInCTE]

theorem directionInCTE_prev (d : SortDirection) :
    directionInCTE "prev" d = invertDirection d := by
  simp [directionInCTE]

/-- The string value of a non-`key_hash` sort field is not `"key_hash"`. -/
theorem toStr_ne_keyHash {f : SortField} (hf : f ≠ .key_hash) :
    f.toStr ≠ "key_hash" := by
  cases f
  case key_hash => exact absurd rfl hf
  all_goals simp [SortField.toStr]

/-- Core forward-page lemma: for a `"next"` cursor taken from row `r` of
the sorted contract rows, the built query returns the `limit` rows
immediately after `r`. -/
theorem queryNext_eq (f : SortField) (d : SortDirection) (tbl : List Row)
    (cid : String) (L : ℕ)
    (hnd : (keyHashes (contractRows tbl cid)).Nodup)
    {A B : List Row} {r : Row}
    (hS : sortRows f d (contractRows tbl cid) = A ++ r :: B) :
    buildContractDataQuery tbl
      ⟨cid, some (boundaryCursor "next" f (APIFieldToDBFieldMap f) r), L, d, f⟩ =
      B.take L := by
  have hpair : (A ++ r :: B).Pairwise (rowLt f d) := hS ▸ sortRows_pairwise_lt f d hnd
  have hBpair : (B.take L).Pairwise (rowLt f d) := by
    refine hpair.sublist ?_
    exact ((B.take_sublist L).trans (List.sublist_cons_self r B)).trans
      (List.sublist_append_right A (r :: B))
  have hfilter : ∀ (p : Row → Bool), (∀ x, p x = true ↔ rowLt f d r x) →
      (sortRows f d ((contractRows tbl cid).filter p)).take L = B.take L := by
    intro p hiff
    rw [sortRows_filter f d hnd p, hS,
      filter_after_middle (fun a b h1 h2 => rowLt_asymm h1 h2) hpair hiff]
  cases hkh : decide (f = SortField.key_hash) with
  | true =>
    have hf : f = SortField.key_hash := of_decide_eq_true hkh
    subst hf
    show sortRows _ d ((sortRows _ (directionInCTE "next" d)
        (tbl.filter (fun x => x.contract_id = cid &&
          sqlStrCmp (opOf (directionInCTE "next" d)) x.key_hash r.key_hash))).take L) =
      B.take L
    rw [directionInCTE_next, filter_where_split tbl cid
      (fun x => sqlStrCmp (opOf d) x.key_hash r.key_hash)]
    rw [hfilter _ (fun x => keyHashCondition_iff d r x)]
    exact sortRows_eq_self hBpair
  | false =>
    have hf : f ≠ SortField.key_hash := of_decide_eq_false hkh
    have hquery : buildContractDataQuery tbl
        ⟨cid, some (boundaryCursor "next" f (APIFieldToDBFieldMap f) r), L, d, f⟩ =
        queryWithCursorSortField tbl cid L f d r.key_hash
          (extractSortValue r (APIFieldToDBFieldMap f)) "next" := by
      simp only [buildContractDataQuery, boundaryCursor, ne_eq, hf, not_false_eq_true,
        if_true]
      rw [if_neg (toStr_ne_keyHash hf)]
    rw [hquery, queryWithCursorSortField]
    simp only [directionInCTE_next]
    rw [filter_where_split tbl cid
      (fun x => buildNullAwareCursorCondition (APIFieldToDBFieldMap f) (opOf d)
        r.key_hash (extractSortValue r (APIFieldToDBFieldMap f)) x)]
    rw [hfilter _ (fun x => cursorCondition_iff f hf d r x)]
    exact sortRows_eq_self hBpair

/-- Core backward-page lemma: for a `"prev"` cursor taken from row `r` of
the sorted contract rows, the built query returns the `limit` rows
immediately before `r` (the closest rows on the other side, fetched in
the inverted direction and re-ordered), in the requested order. -/
theorem queryPrev_eq (f : SortField) (d : SortDirection) (tbl : List Row)
    (cid : String) (L : ℕ)
    (hnd : (keyHashes (contractRows tbl cid)).Nodup)
    {A B : List Row} {r : Row}
    (hS : sortRows f d (contractRows tbl cid) = A ++ r :: B) :
    buildContractDataQuery tbl
      ⟨cid, some (boundaryCursor "prev" f (APIFieldToDBFieldMap f) r), L, d, f⟩ =
      A.drop (A.length - L) := by
  have hd' : sortRows f (invertDirection d) (contractRows tbl cid) =
      B.reverse ++ r :: A.reverse := by
    rw [sortRows_invert f d hnd, hS]
    simp [List.reverse_append]
  have hpair : (A ++ r :: B).Pairwise (rowLt f d) := hS ▸ sortRows_pairwise_lt f d hnd
  have hpair' : (B.reverse ++ r :: A.reverse).Pairwise (rowLt f (invertDirection d)) :=
    hd' ▸ sortRows_pairwise_lt f (invertDirection d) hnd
  have hApair : (A.drop (A.length - L)).Pairwise (rowLt f d) := by
    refine hpair.sublist ?_
    exact (A.drop_sublist (A.length - L)).trans (List.sublist_append_left A (r :: B))
  have hndDrop : (keyHashes ((A.drop (A.length - L)).reverse)).Nodup := by
    have hndS : (keyHashes (A ++ r :: B)).Nodup := by
      rw [← hS, keyHashes]
      exact ((sortRows_perm f d _).map Row.key_hash).nodup_iff.mpr hnd
    rw [keyHashes, List.map_reverse, List.nodup_reverse]
    refine hndS.sublist ?_
    refine List.Sublist.map Row.key_hash ?_
    exact (A.drop_sublist (A.length - L)).trans (List.sublist_append_left A (r :: B))
  have hfilter : ∀ (p : Row → Bool),
      (∀ x, p x = true ↔ rowLt f (invertDirection d) r x) →
      (sortRows f (invertDirection d) ((contractRows tbl cid).filter p)).take L =
        (A.drop (A.length - L)).reverse := by
    intro p hiff
    rw [sortRows_filter f (invertDirection d) hnd p, hd',
      filter_after_middle (fun a b h1 h2 => rowLt_asymm h1 h2) hpair' hiff,
      List.take_reverse]
  have hfinal : sortRows f d ((A.drop (A.length - L)).reverse) =
      A.drop (A.length - L) :=
    sortRows_eq_of_pairwise hndDrop ((A.drop (A.length - L)).reverse_perm).symm hApair
  cases hkh : decide (f = SortField.key_hash) with
  | true =>
    have hf : f = SortField.key_hash := of_decide_eq_true hkh
    subst hf
    show sortRows _ d ((sortRows _ (directionInCTE "prev" d)
        (tbl.filter (fun x => x.contract_id = cid &&
          sqlStrCmp (opOf (directionInCTE "prev" d)) x.key_hash r.key_hash))).take L) =
      _
    rw [directionInCTE_prev, filter_where_split tbl cid
      (fun x => sqlStrCmp (opOf (invertDirection d)) x.key_hash r.key_hash)]
    rw [hfilter _ (fun x => keyHashCondition_iff (invertDirection d) r x)]
    exact hfinal
  | false =>
    have hf : f ≠ SortField.key_hash := of_decide_eq_false hkh
    have hquery : buildContractDataQuery tbl
        ⟨cid, some (boundaryCursor "prev" f (APIFieldToDBFieldMap f) r), L, d, f⟩ =
        queryWithCursorSortField tbl cid L f d r.key_hash
          (extractSortValue r (APIFieldToDBFieldMap f)) "prev" := by
      simp only [buildContractDataQuery, boundaryCursor, ne_eq, hf, not_false_eq_true,
        if_true]
      rw [if_neg (toStr_ne_keyHash hf)]
    rw [hquery, queryWithCursorSortField]
    simp only [directionInCTE_prev]
    rw [filter_where_split tbl cid
      (fun x => buildNullAwareCursorCondition (APIFieldToDBFieldMap f)
        (opOf (invertDirection d)) r.key_hash
        (extractSortValue r (APIFieldToDBFieldMap f)) x)]
    rw [hfilter _ (fun x => cursorCondition_iff f hf (invertDirection d) r x)]
    exact hfinal


theorem pageSeq_getLast_getElem {tbl : List Row} {cid : String} {f : SortField}
    {d : SortDirection} {L k : ℕ} {r : Row}
    (hlen : (pageSeq tbl cid f d L k).length = L)
    (hlast : (pageSeq tbl cid f d L k).getLast? = some r) :
    1 ≤ L ∧ (sortRows f d (contractRows tbl cid))[k * L + L - 1]? = some r := by
  have hL1 : 1 ≤ L := by
    rcases Nat.eq_zero_or_pos L with h0 | h1
    · subst h0
      simp [pageSeq] at hlast
    · exact h1
  refine ⟨hL1, ?_⟩
  rw [List.getLast?_eq_getElem?, hlen, pageSeq, List.getElem?_take] at hlast
  rw [if_pos (by omega)] at hlast
  rw [List.getElem?_drop] at hlast
  rw [show k * L + L - 1 = k * L + (L - 1) by omega]
  exact hlast

theorem pageSeq_head_getElem {tbl : List Row} {cid : String} {f : SortField}
    {d : SortDirection} {L k : ℕ} {r : Row}
    (hhead : (pageSeq tbl cid f d L k).head? = some r) :
    1 ≤ L ∧ (sortRows f d (contractRows tbl cid))[k * L]? = some r := by
  have hL1 : 1 ≤ L := by
    rcases Nat.eq_zero_or_pos L with h0 | h1
    · subst h0
      simp [pageSeq] at hhead
    · exact h1
  refine ⟨hL1, ?_⟩
  rw [List.head?_eq_getElem?, pageSeq, List.getElem?_take, if_pos (by omega),
    List.getElem?_drop] at hhead
  simpa using hhead

/-- C2: for every combination of sort field and order, walking forward via
`next` boundary cursors and backward via the corresponding `prev` boundary
cursors reproduces the same per-page row lists: the no-cursor query is page
0; the query for the `next` cursor of the last row of a full page `k` is
page `k+1`; and the query for the `prev` cursor of the first row of page
`k+1` is page `k` — in particular the `prev` query (which the code fetches
in the inverse of the requested direction inside the CTE, taking the
closest rows on the other side of the cursor, and then re-orders by the
requested direction in the outer SELECT) returns exactly the rows of the
earlier page in the client's requested order, key hash for key hash. -/
theorem c2_forward_backward_roundtrip (tbl : List Row) (cid : String)
    (f : SortField) (d : SortDirection) (L : ℕ)
    (hnd : (keyHashes (contractRows tbl cid)).Nodup) :
    (buildContractDataQuery tbl ⟨cid, none, L, d, f⟩ = pageSeq tbl cid f d L 0) ∧
    (∀ k r, (pageSeq tbl cid f d L k).length = L →
      (pageSeq tbl cid f d L k).getLast? = some r →
      buildContractDataQuery tbl
        ⟨cid, some (boundaryCursor "next" f (APIFieldToDBFieldMap f) r), L, d, f⟩ =
        pageSeq tbl cid f d L (k + 1)) ∧
    (∀ k r, (pageSeq tbl cid f d L (k + 1)).head? = some r →
      buildContractDataQuery tbl
        ⟨cid, some (boundaryCursor "prev" f (APIFieldToDBFieldMap f) r), L, d, f⟩ =
        pageSeq tbl cid f d L k) := by
  refine ⟨?_, ?_, ?_⟩
  · show queryWithoutCursor tbl cid L f d = _
    rw [queryWithoutCursor, pageSeq, contractRows, Nat.zero_mul, List.drop_zero]
  · intro k r hlen hlast
    obtain ⟨hL1, hget⟩ := pageSeq_getLast_getElem hlen hlast
    have hdecomp := decomp_of_getElem hget
    rw [queryNext_eq f d tbl cid L hnd hdecomp]
    rw [pageSeq, show k * L + L - 1 + 1 = (k + 1) * L by rw [Nat.succ_mul]; omega]
  · intro k r hhead
    obtain ⟨hL1, hget⟩ := pageSeq_head_getElem hhead
    have hdecomp := decomp_of_getElem hget
    rw [queryPrev_eq f d tbl cid L hnd hdecomp]
    have hlenA : ((sortRows f d (contractRows tbl cid)).take ((k + 1) * L)).length =
        (k + 1) * L := by
      rw [List.length_take]
      exact Nat.min_eq_left (le_of_lt (List.getElem?_eq_some_iff.mp hget).1)
    rw [hlenA, show (k + 1) * L - L = k * L by rw [Nat.succ_mul]; omega,
      List.drop_take, pageSeq, show (k + 1) * L - k * L = L by rw [Nat.succ_mul]; omega]


/-- Witness for C2 at the spec §8 table: with `sort_by=ttl&order=asc&limit=2`
the no-cursor query is page 0, and walking back from page 1 (whose first
row is the ttl-903 row) returns page 0. -/
theorem c2_forward_backward_roundtrip_witness :
    buildContractDataQuery sampleRows ⟨"C", none, 2, .asc, .ttl⟩ =
      pageSeq sampleRows "C" .ttl .asc 2 0 ∧
    buildContractDataQuery sampleRows
      ⟨"C", some (boundaryCursor "prev" .ttl .live_until_ledger_sequence row903),
        2, .asc, .ttl⟩ = pageSeq sampleRows "C" .ttl .asc 2 0 :=
  ⟨(c2_forward_backward_roundtrip sampleRows "C" .ttl .asc 2 (by decide)).1,
    (c2_forward_backward_roundtrip sampleRows "C" .ttl .asc 2 (by decide)).2.2 0 row903
      (by decide)⟩

/-- C3: sorting by `ttl` places every null-TTL row after all non-null rows
when ascending and before them when descending, with the null group
internally ordered by `key_hash` in the requested direction; and the
null-aware cursor predicate preserves this order exactly: for a cursor at
any boundary row `r` (null or non-null) it selects precisely the rows
strictly after `r` in the effective direction — in particular a
null-boundary cursor advances by `key_hash` within (or out of) the null
group, and a non-null-boundary cursor moving toward the null group also
includes the `IS NULL` rows. -/
theorem c3_ttl_null_ordering (tbl : List Row) (cid : String)
    (hnd : (keyHashes (contractRows tbl cid)).Nodup) :
    ((sortRows .ttl .asc (contractRows tbl cid)).Pairwise (fun a b =>
      (a.live_until_ledger_sequence = none → b.live_until_ledger_sequence = none) ∧
      (a.live_until_ledger_sequence = none → b.live_until_ledger_sequence = none →
        a.key_hash < b.key_hash))) ∧
    ((sortRows .ttl .desc (contractRows tbl cid)).Pairwise (fun a b =>
      (b.live_until_ledger_sequence = none → a.live_until_ledger_sequence = none) ∧
      (a.live_until_ledger_sequence = none → b.live_until_ledger_sequence = none →
        b.key_hash < a.key_hash))) ∧
    (∀ (d : SortDirection) (r x : Row),
      buildNullAwareCursorCondition .live_until_ledger_sequence (opOf d) r.key_hash
        (extractSortValue r .live_until_ledger_sequence) x = true ↔ rowLt .ttl d r x) := by
  refine ⟨?_, ?_, fun d r x => cursorCondition_iff .ttl (by decide) d r x⟩
  · refine (sortRows_pairwise_lt .ttl .asc hnd).imp ?_
    intro a b h
    rw [rowLt_asc_iff_val (by decide)] at h
    rcases ha : a.live_until_ledger_sequence with _ | va <;>
      rcases hb : b.live_until_ledger_sequence with _ | vb <;>
      simp only [APIFieldToDBFieldMap, colValue, ha, hb, valCmpAsc, cmpv_eq_lt,
        cmpv_eq_eq, strCmp_eq_lt_iff, strCmp_eq_eq_iff] at h <;>
      simp_all
  · refine (sortRows_pairwise_lt .ttl .desc hnd).imp ?_
    intro a b h
    rw [rowLt_desc_iff_val (by decide)] at h
    rcases ha : a.live_until_ledger_sequence with _ | va <;>
      rcases hb : b.live_until_ledger_sequence with _ | vb <;>
      simp only [APIFieldToDBFieldMap, colValue, ha, hb, valCmpAsc, cmpv_eq_lt,
        cmpv_eq_eq, strCmp_eq_lt_iff, strCmp_eq_eq_iff] at h <;>
      simp_all

/-- Witness for C3 at the spec §8 table. -/
theorem c3_ttl_null_ordering_witness :
    (sortRows .ttl .asc (contractRows sampleRows "C")).Pairwise (fun a b =>
      (a.live_until_ledger_sequence = none → b.live_until_ledger_sequence = none) ∧
      (a.live_until_ledger_sequence = none → b.live_until_ledger_sequence = none →
        a.key_hash < b.key_hash)) :=
  (c3_ttl_null_ordering sampleRows "C" (by decide)).1


/-- C1 (code bug): in the spec §8 scenario (five rows, three non-null ttl
values and two null-ttl rows, `sort_by=ttl&order=asc&limit=2`) the forward
traversal cannot complete.  Page 1 is `[901, 902]` and its next cursor
decodes fine; page 2 is `[903, null(aa)]`; but the `next` link emitted for
page 2 encodes `sortValue: null` from the null-ttl boundary row, and
`decodeCursor` rejects an explicit null `sortValue`
(`z.union([z.number(), z.string()]).optional()`), so following that link
yields an `InvalidCursorError` (HTTP 400) instead of the remaining row —
even though the query builder itself handles a null cursor boundary
correctly and would return `[null(bb)]`. -/
theorem c1_ttl_null_cursor_bug :
    buildContractDataQuery sampleRows ⟨"C", none, 2, .asc, .ttl⟩ = [row901, row902] ∧
    decodeCursor (CursorWire.parsed
        (encodeCursor (boundaryCursor "next" .ttl .live_until_ledger_sequence row902))) =
      some (boundaryCursor "next" .ttl .live_until_ledger_sequence row902) ∧
    buildContractDataQuery sampleRows
      ⟨"C", some (boundaryCursor "next" .ttl .live_until_ledger_sequence row902),
        2, .asc, .ttl⟩ = [row903, rowAA] ∧
    (buildPaginationLinks rpPage2 [row903, rowAA]).next =
      some { order := .asc, limit := 2, sort_by := some .ttl,
             cursor := some (CursorWire.parsed
               (encodeCursor (boundaryCursor "next" .ttl .live_until_ledger_sequence rowAA))) } ∧
    decodeCursor (CursorWire.parsed
        (encodeCursor (boundaryCursor "next" .ttl .live_until_ledger_sequence rowAA))) =
      none ∧
    buildContractDataQuery sampleRows
      ⟨"C", some (boundaryCursor "next" .ttl .live_until_ledger_sequence rowAA),
        2, .asc, .ttl⟩ = [rowBB] :=
  ⟨by decide, by decide, by decide, by rfl, by decide, by decide⟩

/-- C4: `next` is present iff `results.length >= limit`, and then carries a
`"next"`-type cursor encoded from the last row of the page (`sortField`,
the row's `key_hash`, and the row's sort-column value with timestamps
normalized to Unix seconds by `extractSortValue`); `prev` is present iff a
(truthy) cursor was supplied on the request and the page is non-empty, and
then carries a `"prev"`-type cursor encoded identically from the first
row.  (`limit >= 1` always holds for parsed requests; an empty-string
cursor parameter is falsy in JS and counts as not supplied.) -/
theorem c4_pagination_links (rp : RequestParams) (results : List Row)
    (hL : 1 ≤ rp.limit) :
    ((buildPaginationLinks rp results).next.isSome ↔
      (results.length : Int) ≥ rp.limit) ∧
    (∀ last, results.getLast? = some last → (results.length : Int) ≥ rp.limit →
      (buildPaginationLinks rp results).next = some
        { order := rp.sortDirection, limit := rp.limit,
          sort_by := if rp.sortField ≠ SortField.key_hash then some rp.sortField else none,
          cursor := some (CursorWire.parsed
            (encodeCursor (boundaryCursor "next" rp.sortField rp.sortDbField last))) }) ∧
    ((buildPaginationLinks rp results).prev.isSome ↔
      (requestCursorTruthy rp = true ∧ results ≠ [])) ∧
    (∀ first, results.head? = some first → requestCursorTruthy rp = true →
      (buildPaginationLinks rp results).prev = some
        { order := rp.sortDirection, limit := rp.limit,
          sort_by := if rp.sortField ≠ SortField.key_hash then some rp.sortField else none,
          cursor := some (CursorWire.parsed
            (encodeCursor (boundaryCursor "prev" rp.sortField rp.sortDbField first))) }) := by
  refine ⟨?_, ?_, ?_, ?_⟩
  · simp only [buildPaginationLinks]
    by_cases hc : (results.length : Int) ≥ rp.limit
    · rw [if_pos hc]
      have hne : results ≠ [] := by
        intro he
        subst he
        simp only [List.length_nil, Nat.cast_zero] at hc
        omega
      rcases hlast : results.getLast? with _ | last
      · exact absurd hlast (by simpa using List.getLast?_isSome.mpr hne)
      · simpa using hc
    · rw [if_neg hc]
      simpa using hc
  · intro last hlast hge
    simp only [buildPaginationLinks]
    rw [if_pos hge, hlast]
  · simp only [buildPaginationLinks]
    rcases hhead : results.head? with _ | first
    · have hnil : results = [] := by
        cases results
        · rfl
        · exact absurd hhead (by simp)
      simp [hnil]
    · have hne : results ≠ [] := by
        intro he
        subst he
        exact absurd hhead (by simp)
      by_cases ht : requestCursorTruthy rp = true
      · simp [ht, hne]
      · simp [ht, hne]
  · intro first hhead ht
    simp only [buildPaginationLinks]
    rw [hhead]
    simp [ht]

/-- Witness for C4 at the §8 page-2 request: the page `[903, null(aa)]` is
full, so `next` is present and encodes the cursor of the last row. -/
theorem c4_pagination_links_witness :
    (buildPaginationLinks rpPage2 [row903, rowAA]).next = some
      { order := rpPage2.sortDirection, limit := rpPage2.limit,
        sort_by := if rpPage2.sortField ≠ SortField.key_hash then some rpPage2.sortField else none,
        cursor := some (CursorWire.parsed
          (encodeCursor (boundaryCursor "next" rpPage2.sortField rpPage2.sortDbField rowAA))) } :=
  (c4_pagination_links rpPage2 [row903, rowAA] (by decide)).2.1 rowAA (by decide)
    (by decide)

/-- C5: when a cursor parameter is present and decodes successfully, and
the rest of the request is valid (parsing the same request without the
cursor succeeds with result `r0`), `parseRequestParams` fails with
`CursorParameterMismatchError` exactly when the decoded cursor's
`sortField` (defaulting to `key_hash` when absent) differs from the
request's resolved `sort_by`; the error carries the field name and both
values; and when they agree, parsing succeeds with the decoded cursor
passed through unchanged. -/
theorem c5_cursor_sortfield_mismatch (cid : String) (q : Query) (j : Json)
    (cd : CursorData) (r0 : RequestParams)
    (hcur : q.cursor = some (CursorWire.parsed j))
    (hdec : cursorDataSchema j = some cd)
    (hok : parseRequestParams cid { q with cursor := none } = .ok r0) :
    (cd.sortField.getD "key_hash" ≠ r0.sortField.toStr →
      parseRequestParams cid q =
        .error (.cursorMismatch "sort_by" r0.sortField.toStr cd.sortField)) ∧
    (cd.sortField.getD "key_hash" = r0.sortField.toStr →
      parseRequestParams cid q =
        .ok { r0 with cursor := q.cursor, cursorData := some cd }) := by
  simp only [parseRequestParams,
    show ({ q with cursor := none } : Query).limit = q.limit from rfl,
    show ({ q with cursor := none } : Query).order = q.order from rfl,
    show ({ q with cursor := none } : Query).sort_by = q.sort_by from rfl,
    show ({ q with cursor := none } : Query).cursor = none from rfl] at hok
  simp only [parseRequestParams, hcur, CursorWire.truthy,
    show decodeCursor (CursorWire.parsed j) = some cd from hdec, if_true]
  split at hok
  · exact absurd hok (by simp)
  · rename_i h1
    rw [if_neg h1]
    split at hok
    · exact absurd hok (by simp)
    · rename_i h2
      rw [if_neg h2]
      rw [Except.ok.injEq] at hok
      subst hok
      constructor
      · intro hmis
        rw [if_pos hmis]
      · intro heq
        rw [if_neg (not_not_intro heq)]

/-- Witness for C5: a cursor encoded under `sort_by=ttl` used on a request
with `sort_by=updated_at` is rejected with the mismatch error naming the
field and both values. -/
theorem c5_cursor_sortfield_mismatch_witness :
    parseRequestParams "C"
      ⟨some (CursorWire.parsed (encodeCursor
        (boundaryCursor "next" .ttl .live_until_ledger_sequence row901))),
        none, none, some "updated_at"⟩ =
      .error (.cursorMismatch "sort_by" "updated_at" (some "ttl")) :=
  (c5_cursor_sortfield_mismatch "C"
      ⟨some (CursorWire.parsed (encodeCursor
        (boundaryCursor "next" .ttl .live_until_ledger_sequence row901))),
        none, none, some "updated_at"⟩
      (encodeCursor (boundaryCursor "next" .ttl .live_until_ledger_sequence row901))
      (boundaryCursor "next" .ttl .live_until_ledger_sequence row901)
      ⟨"C", none, none, 20, .desc, .updated_at, .closed_at⟩
      rfl (by decide) (by rfl)).1 (by decide)

/-- Counterexample for C7: the claim says a `limit` string that does not
parse to an integer in `[1,200]` is rejected, but `limit=5.9` (not an
integer) is accepted: `parseInt` keeps the integer prefix, so parsing
succeeds with page size 5. -/
theorem c7_counterexample_limit_truncation :
    parseRequestParams "C" ⟨none, some "5.9", none, none⟩ =
      .ok ⟨"C", none, none, 5, .desc, .key_hash, .key_hash⟩ := by rfl

/-- C7 (amended): with otherwise-default parameters, `parseRequestParams`
rejects a present `limit` string with an `Invalid limit=...` error naming
the literal value exactly when the string is non-empty and JavaScript
`parseInt` of it is `NaN` or outside `[1,200]`; it succeeds otherwise — so
prefixed values such as `"5.9"`, `"12abc"` or `"0x10"` are accepted with
the truncated value, unlike the claim's "must parse to an integer". -/
theorem c7_amended_limit_validation (cid : String) (s : String) :
    (¬(s = "" ∨ ∃ n, jsParseInt s = some n ∧ 1 ≤ n ∧ n ≤ 200) →
      parseRequestParams cid ⟨none, some s, none, none⟩ =
        .error (.invalidLimit s)) ∧
    ((s = "" ∨ ∃ n, jsParseInt s = some n ∧ 1 ≤ n ∧ n ≤ 200) →
      ∃ rp, parseRequestParams cid ⟨none, some s, none, none⟩ = .ok rp) ∧
    (ParseError.invalidLimit s).message =
      "Invalid limit=" ++ s ++ ", must be an integer between 1 and 200" := by
  refine ⟨?_, ?_, rfl⟩
  · intro hbad
    push_neg at hbad
    obtain ⟨hs, hn⟩ := hbad
    have hcond : (s != "" &&
        match jsParseInt s with
        | none => true
        | some n => decide (n < 1) || decide (n > 200)) = true := by
      rw [Bool.and_eq_true]
      refine ⟨by simpa using hs, ?_⟩
      cases hp : jsParseInt s with
      | none => rfl
      | some n =>
        have hrange := hn n hp
        simp only [Bool.or_eq_true, decide_eq_true_eq]
        omega
    simp only [parseRequestParams, Option.getD_some, Option.getD_none]
    rw [if_pos hcond]
  · intro hgood
    have hcond : ¬((s != "" &&
        match jsParseInt s with
        | none => true
        | some n => decide (n < 1) || decide (n > 200)) = true) := by
      rcases hgood with hs | ⟨n, hp, h1, h2⟩
      · subst hs
        decide
      · have hm : (match jsParseInt s with
            | none => true
            | some n => decide (n < 1) || decide (n > 200)) = false := by
          rw [hp]
          simp only [Bool.or_eq_false_iff, decide_eq_false_iff_not]
          omega
        intro hc
        rw [Bool.and_eq_true, hm] at hc
        exact absurd hc.2 (by simp)
    simp only [parseRequestParams, Option.getD_some, Option.getD_none]
    rw [if_neg hcond, if_neg (by decide)]
    exact ⟨_, rfl⟩

/-- Witness for C7 (amended) at the spec's concrete scenario: `limit=invalid`
fails with exactly the documented message. -/
theorem c7_amended_limit_validation_witness :
    parseRequestParams "C" ⟨none, some "invalid", none, none⟩ =
      .error (.invalidLimit "invalid") ∧
    (ParseError.invalidLimit "invalid").message =
      "Invalid limit=invalid, must be an integer between 1 and 200" :=
  ⟨(c7_amended_limit_validation "C" "invalid").1
      (by
        rintro (h | ⟨n, hp, h1, h2⟩)
        · exact absurd h (by decide)
        · rw [show jsParseInt "invalid" = none from rfl] at hp
          exact absurd hp (by simp)),
    (c7_amended_limit_validation "C" "invalid").2.2⟩

/-- C10: a present-but-empty `limit` query parameter skips the validation
branch entirely (JS falsiness of the empty string), and the resulting page
size is the `parseInt` fallback 10 — not the documented default 20 and not
a rejection. -/
theorem c10_empty_limit_skips_validation :
    parseRequestParams "C" ⟨none, some "", none, none⟩ =
      .ok ⟨"C", none, none, 10, .desc, .key_hash, .key_hash⟩ := by rfl

/-- Counterexample for C6: the decode-time validation described by the
claim does not exist.  An unknown `sortField` (`"bogus"`) decodes
successfully; an explicit null `sortValue` for the nullable field `ttl` is
rejected (the claim says it is accepted); and a type-mismatched
`sortValue` (a string for the numeric field `ttl`) decodes successfully. -/
theorem c6_counterexample_schema_looseness :
    cursorDataSchema (Json.obj [("cursorType", Json.str "next"),
      ("sortField", Json.str "bogus"),
      ("position", Json.obj [("keyHash", Json.str "ab")])]) =
      some ⟨"next", some "bogus", "ab", none⟩ ∧
    cursorDataSchema (Json.obj [("cursorType", Json.str "next"),
      ("sortField", Json.str "ttl"),
      ("position", Json.obj [("keyHash", Json.str "ab"), ("sortValue", Json.null)])]) =
      none ∧
    cursorDataSchema (Json.obj [("cursorType", Json.str "next"),
      ("sortField", Json.str "ttl"),
      ("position", Json.obj [("keyHash", Json.str "ab"),
        ("sortValue", Json.str "not-a-number")])]) =
      some ⟨"next", some "ttl", "ab", some (JsPrim.str "not-a-number")⟩ :=
  ⟨rfl, rfl, rfl⟩

theorem cursorSchemaPosition_isSome (fields : List (String × Json)) (ct : String)
    (sf : Option String) :
    (cursorDataSchema.cursorSchemaPosition fields ct sf).isSome = positionSpecOk fields := by
  rcases h : Json.lookup fields "position" with _ | p
  · simp [cursorDataSchema.cursorSchemaPosition, positionSpecOk, h]
  · cases p <;>
      simp only [cursorDataSchema.cursorSchemaPosition, positionSpecOk, h] <;>
      try rfl
    case obj pos =>
      rcases hk : Json.lookup pos "keyHash" with _ | k
      · simp [hk]
      · cases k <;> simp only [hk] <;> try simp
        case str kv =>
          rcases hsv : Json.lookup pos "sortValue" with _ | sv
          · simp [hsv]
          · cases sv <;> simp [hsv]

/-- C6 (amended): `decodeCursor` on a successfully parsed JSON document
succeeds exactly when the document satisfies the loose structural
predicate `cursorSchemaSpec` — not the field-aware validation the claim
describes. -/
theorem c6_amended_schema_characterization (j : Json) :
    (decodeCursor (CursorWire.parsed j)).isSome = cursorSchemaSpec j := by
  show (cursorDataSchema j).isSome = cursorSchemaSpec j
  cases j <;> try rfl
  case obj fields =>
    rcases hct : Json.lookup fields "cursorType" with _ | ct
    · simp [cursorDataSchema, cursorSchemaSpec, hct]
    · cases ct <;> simp only [cursorDataSchema, cursorSchemaSpec, hct] <;> try simp
      case str ctv =>
        by_cases hv : ctv = "next" ∨ ctv = "prev"
        · rw [if_pos hv]
          have hvb : (ctv = "next" || ctv = "prev") = true := by
            rcases hv with h | h <;> simp [h]
          rw [hvb, Bool.true_and]
          rcases hsf : Json.lookup fields "sortField" with _ | sf
          · rw [cursorSchemaPosition_isSome, Bool.true_and]
          · cases sf <;> simp only [hsf] <;>
              first
              | (rw [cursorSchemaPosition_isSome, Bool.true_and])
              | rfl
        · rw [if_neg hv]
          have hvb : (ctv = "next" || ctv = "prev") = false := by
            simp only [Bool.or_eq_false_iff, decide_eq_false_iff_not]
            exact not_or.mp hv
          rw [hvb, Bool.false_and]
          rfl

/-- C8: `encodeCursor` normalizes any `cursorType` other than `"prev"` to
`"next"`; it converts a bigint `sortValue` to its decimal-string form; and
consequently encode-then-decode is the identity on every cursor whose
`cursorType` is already `"next"` or `"prev"` and whose `sortValue` is
absent, a number, or a string. -/
theorem c8_codec_roundtrip :
    (∀ c : CursorData, c.cursorType ≠ "prev" →
      encodeCursor c = encodeCursor
        { cursorType := "next", sortField := c.sortField, position := c.position }) ∧
    (∀ (c : CursorData) (n : Int), c.position.sortValue = some (JsPrim.bigintVal n) →
      encodeCursor c = encodeCursor
        { cursorType := c.cursorType, sortField := c.sortField,
          position := { keyHash := c.position.keyHash,
                        sortValue := some (JsPrim.str (toString n)) } }) ∧
    (∀ c : CursorData, (c.cursorType = "next" ∨ c.cursorType = "prev") →
      (∀ v, c.position.sortValue = some v →
        (∃ n, v = JsPrim.num n) ∨ (∃ s, v = JsPrim.str s)) →
      decodeCursor (CursorWire.parsed (encodeCursor c)) = some c) := by
  refine ⟨?_, ?_, ?_⟩
  · intro c h
    simp only [encodeCursor]
    rw [if_pos (bne_iff_ne.mpr h), if_pos (by decide)]
  · intro c n h
    simp only [encodeCursor, h]
  · rintro ⟨ct, sf, kh, sv⟩ hct hval
    rcases sv with _ | v
    · rcases hct with rfl | rfl <;> rcases sf with _ | sfv <;> rfl
    · rcases hval v rfl with ⟨n, rfl⟩ | ⟨s2, rfl⟩ <;>
        rcases hct with rfl | rfl <;> rcases sf with _ | sfv <;> rfl

/-- Witness for C8: a concrete durability cursor round-trips. -/
theorem c8_codec_roundtrip_witness :
    decodeCursor (CursorWire.parsed (encodeCursor
      ⟨"next", some "durability", "ab", some (JsPrim.str "persistent")⟩)) =
      some ⟨"next", some "durability", "ab", some (JsPrim.str "persistent")⟩ :=
  c8_codec_roundtrip.2.2 ⟨"next", some "durability", "ab", some (JsPrim.str "persistent")⟩
    (Or.inl rfl)
    (fun _v hv => Or.inr ⟨"persistent", (Option.some.inj hv).symm⟩)

/-- C9: every cursor a successful `decodeCursor` returns has `cursorType`
exactly `"next"` or `"prev"`, and its `position.sortValue`, when present,
is a number or a string — never null, an object, or an array
(`position.keyHash` is a string by the return type).  The query builder's
cursor branches therefore always receive a well-formed position and a
two-valued cursor type. -/
theorem c9_decoded_cursor_shape (w : CursorWire) (c : CursorData)
    (h : decodeCursor w = some c) :
    (c.cursorType = "next" ∨ c.cursorType = "prev") ∧
    (∀ v, c.position.sortValue = some v →
      (∃ n, v = JsPrim.num n) ∨ (∃ s, v = JsPrim.str s)) := by
  cases w with
  | emptyStr => exact absurd h (by simp [decodeCursor])
  | malformed => exact absurd h (by simp [decodeCursor])
  | parsed j =>
    have h2 : cursorDataSchema j = some c := h
    unfold cursorDataSchema cursorDataSchema.cursorSchemaPosition at h2
    split at h2 <;> try cases h2
    split at h2 <;> try cases h2
    rename_i ctv heq
    by_cases hcv : ctv = "next" ∨ ctv = "prev"
    · rw [if_pos hcv] at h2
      split at h2 <;> try cases h2
      all_goals (split at h2 <;> try cases h2)
      all_goals (split at h2 <;> try cases h2)
      all_goals (split at h2 <;> try cases h2)
      all_goals
        refine ⟨hcv, ?_⟩
        intro v hv
        cases hv <;>
          first
            | exact Or.inl ⟨_, rfl⟩
            | exact Or.inr ⟨_, rfl⟩
    · rw [if_neg hcv] at h2
      cases h2

/-- Witness for C9 at a concrete decoded cursor. -/
theorem c9_decoded_cursor_shape_witness :
    (("prev" : String) = "next" ∨ ("prev" : String) = "prev") ∧
    (∀ v, (some (JsPrim.num 7) : Option JsPrim) = some v →
      (∃ n, v = JsPrim.num n) ∨ (∃ s, v = JsPrim.str s)) :=
  c9_decoded_cursor_shape
    (CursorWire.parsed (encodeCursor ⟨"prev", none, "ab", some (JsPrim.num 7)⟩))
    ⟨"prev", none, "ab", some (JsPrim.num 7)⟩ (by decide)

end LabBackend
